import Mathlib

/-!
Verification of the selection-resolution and cost-estimation core of a
GraphQL execution pipeline (graphql-go fork).

The first half embeds `internal/exec/selected/selected.go`: the value and
packer model, the query AST, the schema type graph, the resolvable
descriptors, and the mutually recursive functions `applySelectionSet`
(modelled with its accumulator made explicit as `applySelAux`),
`applyFragment`, `applyField`, `skipByDirective` and `HasAsyncSel`.
Mutation of the request's error slice is modelled by threading the
`Request` value; Go panics (nil map dereference, `MustGet`, explicit
`panic(...)` calls) are modelled as `Except` errors; potential
non-termination through fragment spreads is handled by a fuel parameter
that every recursive call decrements.

The second half models the static cost estimator (`estimateCost` of the
validation package), whose implementation is not part of the provided
sources; it is reconstructed from the specification and pinned down by the
seven expected values of the repository's own cost test table, each of
which is proved as an evaluation theorem.
-/

set_option linter.unusedVariables false

namespace Gql

/-- Argument values as they appear in a parsed query: literals, null, or a
variable reference to be resolved against the request's variable bindings. -/
inductive GValue where
  | vbool (b : Bool)
  | vstr (s : String)
  | vint (n : Int)
  | vnull
  | vvar (name : String)
deriving Repr, DecidableEq

/-- common.Value.Value(vars): a variable resolves to its binding (null when
absent); every literal resolves to itself. -/
def resolveValue (vars : List (String × GValue)) : GValue → GValue
  | .vvar x => (vars.lookup x).getD .vnull
  | v => v

/-- packer.ValuePacker with ValueType bool: packing succeeds exactly on
boolean values and errors otherwise. -/
def packBool : GValue → Except String Bool
  | .vbool b => .ok b
  | _ => .error "cannot pack value as boolean"

/-- packer.ValuePacker with ValueType string. -/
def packString : GValue → Except String String
  | .vstr s => .ok s
  | _ => .error "cannot pack value as string"

/-- A directive occurrence with its raw arguments (common.Directive). -/
structure Directive where
  name : String
  args : List (String × GValue)

mutual
/-- query.Field: name, alias, raw arguments, directives, selection set. -/
inductive QField where
  | mk (name aliasName : String) (args : List (String × GValue))
      (directives : List Directive) (sels : List QSel)
/-- query.Fragment: type condition (empty string when absent) and selections. -/
inductive QFragment where
  | mk (onType : String) (sels : List QSel)
/-- query.Selection: field, inline fragment, or fragment spread. -/
inductive QSel where
  | field (f : QField)
  | inlineFrag (directives : List Directive) (frag : QFragment)
  | spread (name : String) (directives : List Directive)
end

def QField.name : QField → String | ⟨n, _, _, _, _⟩ => n
def QField.aliasName : QField → String | ⟨_, a, _, _, _⟩ => a
def QField.args : QField → List (String × GValue) | ⟨_, _, a, _, _⟩ => a
def QField.directives : QField → List Directive | ⟨_, _, _, d, _⟩ => d
def QField.sels : QField → List QSel | ⟨_, _, _, _, s⟩ => s
def QFragment.onType : QFragment → String | ⟨o, _⟩ => o
def QFragment.sels : QFragment → List QSel | ⟨_, s⟩ => s

/-- schema.Object as seen by applyFragment: its name and the names of the
interfaces it implements. -/
structure SObj where
  name : String
  interfaces : List String
deriving Repr, DecidableEq

/-- schema.NamedType restricted to what applyFragment inspects: objects,
unions and interfaces with their possible concrete object types. -/
inductive SType where
  | obj (o : SObj)
  | union (name : String) (possibleTypes : List SObj)
  | iface (name : String) (possibleTypes : List SObj)
deriving Repr, DecidableEq

/-- The switch in applyFragment that expands a type into its applicable
object types: possible types for unions and interfaces, a singleton for an
object. -/
def SType.expand : SType → List SObj
  | .obj o => [o]
  | .union _ ts => ts
  | .iface _ ts => ts

mutual
/-- resolvable.Object: name, field map, type-assertion map. -/
inductive RObject where
  | mk (name : String) (fields : List (String × RField))
      (typeAssertions : List (String × RTypeAssertion))
/-- resolvable.Field: context/error capabilities, optional argument packer
(modelled by its observable Pack behaviour), and the value resolvable. -/
inductive RField where
  | mk (hasContext hasError : Bool)
      (argsPacker : Option (List (String × GValue) → Except String Unit))
      (valueExec : RResolvable)
/-- resolvable.TypeAssertion: carries the TypeExec used for recursion. -/
inductive RTypeAssertion where
  | mk (typeExec : RResolvable)
/-- resolvable.Resolvable: object, list wrapper, or scalar. -/
inductive RResolvable where
  | robj (o : RObject)
  | rlist (elem : RResolvable)
  | rscalar
end

def RObject.name : RObject → String | ⟨n, _, _⟩ => n
def RObject.fields : RObject → List (String × RField) | ⟨_, f, _⟩ => f
def RObject.typeAssertions : RObject → List (String × RTypeAssertion) | ⟨_, _, t⟩ => t
def RField.hasContext : RField → Bool | ⟨c, _, _, _⟩ => c
def RField.hasError : RField → Bool | ⟨_, e, _, _⟩ => e
def RField.argsPacker : RField → Option (List (String × GValue) → Except String Unit)
  | ⟨_, _, p, _⟩ => p
def RField.valueExec : RField → RResolvable | ⟨_, _, _, v⟩ => v
def RTypeAssertion.typeExec : RTypeAssertion → RResolvable | ⟨t⟩ => t

/-- The FixedResult slot of a SchemaField: empty for ordinary fields, the
wrapped schema for __schema, a wrapped named type for __type. -/
inductive FixedRes where
  | noneR
  | schemaR
  | typeR (t : SType)

/-- selected.Selection: the closed output variant. -/
inductive Selection where
  | schemaField (field : RField) (aliasName : String) (args : List (String × GValue))
      (sels : List Selection) (async : Bool) (fixedResult : FixedRes)
  | typeAssertion (ta : RTypeAssertion) (sels : List Selection)
  | typenameField (obj : RObject) (aliasName : String)

/-- resolvable.Meta: descriptors and objects backing __schema and __type. -/
structure SMeta where
  fieldSchema : RField
  fieldType : RField
  metaSchema : RObject
  metaType : RObject

/-- resolvable.Schema restricted to what applySelectionSet touches. -/
structure RSchema where
  meta : SMeta

/-- selected.Request: schema type map, document fragment table, variables,
introspection flag, and the error sink (the mutex guards concurrent appends
in Go; within this single-threaded layer only the list is observable). -/
structure Request where
  schema : List (String × SType)
  fragments : List (String × QFragment)
  vars : List (String × GValue)
  disableIntrospection : Bool
  errs : List String

/-- Request.AddError: appends one error at the end of the sink. -/
def addError (r : Request) (e : String) : Request := { r with errs := r.errs ++ [e] }

/-- Go panics and fuel exhaustion, as explicit outcomes. -/
inductive GPanic where
  | outOfFuel
  | typeNotFound (n : String)
  | emptyApplicable
  | unknownTypeAssertion (n : String)
  | invalidTypeSpread
  | mustGetMissing
  | fragmentNotFound (n : String)
  | nilFieldDeref (n : String)
  | notAnObject
deriving Repr, DecidableEq

/-- The include half of skipByDirective: a present include whose if argument
packs to false excludes; packing failure records an error and does not
exclude; a missing if argument panics (MustGet). -/
def includeStep (r : Request) (ds : List Directive) : Except GPanic (Request × Bool) :=
  match ds.find? (fun d => d.name == "include") with
  | none => .ok (r, false)
  | some d =>
    match d.args.lookup "if" with
    | none => .error .mustGetMissing
    | some raw =>
      match packBool (resolveValue r.vars raw) with
      | .error msg => .ok (addError r msg, false)
      | .ok b => if !b then .ok (r, true) else .ok (r, false)

/-- selected.skipByDirective: skip is checked first; a skip whose if packs
to true excludes immediately; a skip packing failure records an error and
falls through to the include check. -/
def skipByDirective (r : Request) (ds : List Directive) : Except GPanic (Request × Bool) :=
  match ds.find? (fun d => d.name == "skip") with
  | none => includeStep r ds
  | some d =>
    match d.args.lookup "if" with
    | none => .error .mustGetMissing
    | some raw =>
      match packBool (resolveValue r.vars raw) with
      | .error msg => includeStep (addError r msg) ds
      | .ok b => if b then .ok (r, true) else includeStep r ds

/-- The applicable-types computation at the top of applyFragment, given
the already-resolved parent type: the fragment's condition is expanded
(empty when it does not resolve) and intersected by name with the parent
expansion. -/
def applicableTypesFor (r : Request) (frag : QFragment) (pt : SType) : List SObj :=
  let apt := pt.expand
  let aft := match r.schema.lookup frag.onType with
    | none => []
    | some ft => ft.expand
  aft.filter (fun t => apt.any (fun p => p.name == t.name))

/-- selected.HasAsyncSel: true when some SchemaField reachable through
top-level position or TypeAssertion nesting is async; TypenameFields never
contribute. -/
def hasAsyncSel : List Selection → Bool
  | [] => false
  | .schemaField _ _ _ _ async _ :: rest => async || hasAsyncSel rest
  | .typeAssertion _ sels :: rest => hasAsyncSel sels || hasAsyncSel rest
  | .typenameField _ _ :: rest => hasAsyncSel rest

mutual

/-- The loop body of applySelectionSet with the named return value
`flattenedSels` made explicit as the accumulator `acc`. A bare `return`
in the Go source returns the current accumulator; `return nil` discards
it. Fuel decreases on every recursive call. -/
def applySelAux : Nat → Request → RSchema → RObject → List QSel → List Selection →
    Except GPanic (Request × List Selection)
  | 0, _, _, _, _, _ => .error .outOfFuel
  | _ + 1, r, _, _, [], acc => .ok (r, acc)
  | n + 1, r, s, e, sel :: rest, acc =>
    match sel with
    | .field f =>
      match skipByDirective r f.directives with
      | .error p => .error p
      | .ok (r, true) => applySelAux n r s e rest acc
      | .ok (r, false) =>
        if f.name == "__typename" then
          if r.disableIntrospection then applySelAux n r s e rest acc
          else applySelAux n r s e rest (acc ++ [.typenameField e f.aliasName])
        else if f.name == "__schema" then
          if r.disableIntrospection then applySelAux n r s e rest acc
          else
            match applySelAux n r s s.meta.metaSchema f.sels [] with
            | .error p => .error p
            | .ok (r, kids) =>
              applySelAux n r s e rest
                (acc ++ [.schemaField s.meta.fieldSchema f.aliasName [] kids true .schemaR])
        else if f.name == "__type" then
          if r.disableIntrospection then applySelAux n r s e rest acc
          else
            match f.args.lookup "name" with
            | none => .error .mustGetMissing
            | some raw =>
              match packString (resolveValue r.vars raw) with
              | .error msg => .ok (addError r msg, [])
              | .ok tname =>
                match r.schema.lookup tname with
                | none => .ok (r, [])
                | some t =>
                  match applySelAux n r s s.meta.metaType f.sels [] with
                  | .error p => .error p
                  | .ok (r, kids) =>
                    applySelAux n r s e rest
                      (acc ++ [.schemaField s.meta.fieldType f.aliasName [] kids true (.typeR t)])
        else
          match e.fields.lookup f.name with
          | none => .error (.nilFieldDeref f.name)
          | some fe =>
            match fe.argsPacker with
            | some p =>
              let args := f.args.map (fun a => (a.1, resolveValue r.vars a.2))
              match p args with
              | .error msg => .ok (addError r msg, acc)
              | .ok _ =>
                match applyField n r s fe.valueExec f.sels with
                | .error pp => .error pp
                | .ok (r, kids) =>
                  applySelAux n r s e rest (acc ++
                    [.schemaField fe f.aliasName args kids
                      (fe.hasContext || fe.argsPacker.isSome || fe.hasError || hasAsyncSel kids)
                      .noneR])
            | none =>
              match applyField n r s fe.valueExec f.sels with
              | .error pp => .error pp
              | .ok (r, kids) =>
                applySelAux n r s e rest (acc ++
                  [.schemaField fe f.aliasName [] kids
                    (fe.hasContext || fe.argsPacker.isSome || fe.hasError || hasAsyncSel kids)
                    .noneR])
    | .inlineFrag ds frag =>
      match skipByDirective r ds with
      | .error p => .error p
      | .ok (r, true) => applySelAux n r s e rest acc
      | .ok (r, false) =>
        match applyFragment n r s e frag with
        | .error p => .error p
        | .ok (r, fsels) => applySelAux n r s e rest (acc ++ fsels)
    | .spread fname ds =>
      match skipByDirective r ds with
      | .error p => .error p
      | .ok (r, true) => applySelAux n r s e rest acc
      | .ok (r, false) =>
        match r.fragments.lookup fname with
        | none => .error (.fragmentNotFound fname)
        | some frag =>
          match applyFragment n r s e frag with
          | .error p => .error p
          | .ok (r, fsels) => applySelAux n r s e rest (acc ++ fsels)

/-- selected.applyFragment: expands the enclosing type and the fragment's
type condition into applicable object types, intersects them by name,
panics on an empty intersection, then dispatches: non-trivial interface
condition fans out per implementing possible type; non-trivial object
condition emits a single TypeAssertion; otherwise (trivial) the fragment's
selections are resolved directly against the enclosing type. -/
def applyFragment : Nat → Request → RSchema → RObject → QFragment →
    Except GPanic (Request × List Selection)
  | 0, _, _, _, _ => .error .outOfFuel
  | n + 1, r, s, e, frag =>
    match r.schema.lookup e.name with
    | none => .error (.typeNotFound e.name)
    | some parentType =>
      let applicable := applicableTypesFor r frag parentType
      if applicable.isEmpty then .error .emptyApplicable
      else if frag.onType != "" && frag.onType != e.name then
        match r.schema.lookup frag.onType with
        | some (.iface _ pts) => ifaceLoop n r s e frag applicable pts
        | _ =>
          match applicable.find? (fun t => t.name == frag.onType) with
          | none => .error .invalidTypeSpread
          | some a =>
            match e.typeAssertions.lookup a.name with
            | none => .error (.unknownTypeAssertion frag.onType)
            | some ta =>
              match ta.typeExec with
              | .robj o =>
                match applySelAux n r s o frag.sels [] with
                | .error p => .error p
                | .ok (r, kids) => .ok (r, [.typeAssertion ta kids])
              | _ => .error .notAnObject
      else applySelAux n r s e frag.sels []

/-- The outer loop of applyFragment's interface branch: iterate over the
interface's possible types. -/
def ifaceLoop : Nat → Request → RSchema → RObject → QFragment → List SObj → List SObj →
    Except GPanic (Request × List Selection)
  | 0, _, _, _, _, _, _ => .error .outOfFuel
  | _ + 1, r, _, _, _, _, [] => .ok (r, [])
  | n + 1, r, s, e, frag, applicable, t :: ts =>
    match innerLoop n r s e frag applicable t t.interfaces with
    | .error p => .error p
    | .ok (r, selsT) =>
      match ifaceLoop n r s e frag applicable ts with
      | .error p => .error p
      | .ok (r, selsRest) => .ok (r, selsT ++ selsRest)

/-- The inner loop of applyFragment's interface branch: for every interface
name of the candidate type matching the fragment's condition, emit one
TypeAssertion when the type survived the intersection, skipping it
otherwise. -/
def innerLoop : Nat → Request → RSchema → RObject → QFragment → List SObj → SObj →
    List String → Except GPanic (Request × List Selection)
  | 0, _, _, _, _, _, _, _ => .error .outOfFuel
  | _ + 1, r, _, _, _, _, _, [] => .ok (r, [])
  | n + 1, r, s, e, frag, applicable, t, i :: iss =>
    if i == frag.onType then
      match applicable.find? (fun a => a.name == t.name) with
      | none => innerLoop n r s e frag applicable t iss
      | some a =>
        match e.typeAssertions.lookup a.name with
        | none => .error (.unknownTypeAssertion frag.onType)
        | some ta =>
          match ta.typeExec with
          | .robj o =>
            match applySelAux n r s o frag.sels [] with
            | .error p => .error p
            | .ok (r, kids) =>
              match innerLoop n r s e frag applicable t iss with
              | .error p => .error p
              | .ok (r, more) => .ok (r, .typeAssertion ta kids :: more)
          | _ => .error .notAnObject
    else innerLoop n r s e frag applicable t iss

/-- selected.applyField: unwrap list wrappers, recurse into objects,
terminate at scalars with no children. -/
def applyField : Nat → Request → RSchema → RResolvable → List QSel →
    Except GPanic (Request × List Selection)
  | 0, _, _, _, _ => .error .outOfFuel
  | n + 1, r, s, .robj o, sels => applySelAux n r s o sels []
  | n + 1, r, s, .rlist elem, sels => applyField n r s elem sels
  | _ + 1, r, _, .rscalar, _ => .ok (r, [])

end

/-- selected.applySelectionSet: the loop with an initially empty
accumulator. -/
def applySelectionSet (n : Nat) (r : Request) (s : RSchema) (e : RObject)
    (sels : List QSel) : Except GPanic (Request × List Selection) :=
  applySelAux n r s e sels []

/-!
The static cost estimator (`estimateCost` of the validation package).

Modelled from the spec: the implementation of `estimateCost`,
`newContext`, `opContext` and `getEntryPoint` is not part of the provided
sources — only the validation package's test table is. The definitions
below follow §4.4 of the specification except where the repository's own
test expectations (which are part of the sources) pin down a different
rule; every expected value of that test table is proved below
(`costEval_*`), which fixes the model uniquely among the candidate
readings:
 - the values of the multiplier arguments actually supplied are summed
   (test "sums up multipliers", expected `1*(5+10) + 1`), not multiplied;
   when none is supplied the factor is 1;
 - the multiplier scales the cost of the field's sub-selections; the
   field's own complexity is added unscaled; a child field annotated
   `useMultipliers: false` is exempted from its parent field's multiplier
   (test "useMultipliers false on one field", expected `(1+2)*5 + 1 + 3 + 1`);
 - a field with a `@cost` annotation but no complexity, or with no
   annotation and no interface declaration for it, has complexity 0
   (forced by the same two tests); a field lacking its own complexity
   takes the one declared on an implemented interface (test "takes
   complexity from interface if type has no annotation");
 - non-trivial fragments are grouped by their type-condition name; within
   a group costs are summed, across groups the maximum is taken; fields
   and trivial fragments at the same level are added once (tests "takes
   cost from more expensive union type" and "complex", expected 82);
 - a fragment's selections are costed against its type-condition type
   itself, also for interface conditions (test "cost from fragment on
   interface");
 - a plain field selected on a union enclosing type is resolved against
   the first member type declaring it (test "complex"; the expected 82
   cannot distinguish first-member from maximum-over-members here, since
   the first member's declaration is also the most expensive one).
-/

/-- A field declaration as the cost estimator sees it: the @cost
directive's complexity (absent when not given), its multiplier argument
names, its useMultipliers flag, and the named base type of the field's
result after unwrapping list/non-null wrappers. -/
structure CField where
  name : String
  complexity : Option Nat
  multipliers : List String
  useMultipliers : Bool
  retType : String
deriving Repr, DecidableEq

/-- A named schema type as the cost estimator sees it. -/
inductive CType where
  | obj (name : String) (fields : List CField) (interfaces : List String)
  | iface (name : String) (fields : List CField)
  | union (name : String) (members : List String)
deriving Repr, DecidableEq

def CType.cname : CType → String
  | .obj n _ _ => n
  | .iface n _ => n
  | .union n _ => n

def CType.cfields : CType → List CField
  | .obj _ fs _ => fs
  | .iface _ fs => fs
  | .union _ _ => []

def CSchema : Type := List CType

def lookupCType (sch : CSchema) (n : String) : Option CType :=
  List.find? (fun t => t.cname == n) sch

/-- The complexity declared for a field of the given name on one of the
listed interfaces, if any. -/
def ifaceComplexity (sch : CSchema) (ifaces : List String) (fname : String) : Option Nat :=
  ifaces.findSome? (fun i =>
    match lookupCType sch i with
    | some (.iface _ fs) => (fs.find? (fun f => f.name == fname)).bind (fun f => f.complexity)
    | _ => none)

/-- Base complexity of a field declared on type `t`: its own declared
complexity; else the complexity declared on an implemented interface;
else 0. -/
def complexityOf (sch : CSchema) (t : CType) (f : CField) : Nat :=
  match f.complexity with
  | some c => c
  | none =>
    match t with
    | .obj _ _ ifaces => (ifaceComplexity sch ifaces f.name).getD 0
    | _ => 0

/-- Resolve a query field name against an enclosing type name: on objects
and interfaces by their own field list, on unions via the first member
type declaring the field. Returns the declaring type together with the
declaration. -/
def findCField (sch : CSchema) (tname fname : String) : Option (CType × CField) :=
  match lookupCType sch tname with
  | none => none
  | some (.union _ members) =>
    members.findSome? (fun m =>
      match lookupCType sch m with
      | some mt => (mt.cfields.find? (fun f => f.name == fname)).map (fun f => (mt, f))
      | none => none)
  | some t => (t.cfields.find? (fun f => f.name == fname)).map (fun f => (t, f))

/-- Multiplier factor of a field occurrence: the sum of the integer values
of the declared multiplier arguments actually supplied; 1 when the field
declares no multipliers, when useMultipliers is disabled, or when none of
the declared multiplier arguments is supplied. -/
def suppliedMultVals (vars : List (String × GValue)) (d : CField)
    (args : List (String × GValue)) : List Nat :=
  d.multipliers.filterMap (fun m =>
    (args.lookup m).bind (fun raw =>
      match resolveValue vars raw with
      | .vint k => some k.toNat
      | _ => none))

def multVal (vars : List (String × GValue)) (d : CField) (args : List (String × GValue)) : Nat :=
  if d.multipliers.isEmpty || !d.useMultipliers then 1
  else
    let vals := suppliedMultVals vars d args
    if vals.isEmpty then 1 else vals.sum

/-- Directive exclusion for cost estimation (spec §4.3, outcome only):
a skip whose if packs to true, else an include whose if packs to false,
excludes; packing failures and missing arguments do not exclude. -/
def costExcluded (vars : List (String × GValue)) (ds : List Directive) : Bool :=
  (match ds.find? (fun d => d.name == "skip") with
   | some d =>
     match d.args.lookup "if" with
     | some raw => match packBool (resolveValue vars raw) with | .ok b => b | .error _ => false
     | none => false
   | none => false) ||
  (match ds.find? (fun d => d.name == "include") with
   | some d =>
     match d.args.lookup "if" with
     | some raw => match packBool (resolveValue vars raw) with | .ok b => !b | .error _ => false
     | none => false
   | none => false)

/-- Add a fragment branch's cost to the group of its type-condition name. -/
def addGroup : List (String × Nat) → String → Nat → List (String × Nat)
  | [], k, v => [(k, v)]
  | (k', v') :: rest, k, v =>
    if k' == k then (k', v' + v) :: rest else (k', v') :: addGroup rest k v

/-- Maximum group cost (0 when there is no fragment branch). -/
def groupMax : List (String × Nat) → Nat
  | [] => 0
  | (_, v) :: rest => max v (groupMax rest)

/-- Accumulator of one selection-set walk of the estimator: contributions
of fields subject to the enclosing field's multiplier, contributions of
useMultipliers-false fields exempt from it, and the per-condition-name
fragment branch groups. -/
structure CAcc where
  mult : Nat
  flat : Nat
  groups : List (String × Nat)
deriving Repr, DecidableEq

mutual

/-- Contribution of one field occurrence: its base complexity, plus its
multiplier factor times the multiplier-subject part of its sub-selections,
plus the exempt part unscaled. An unknown field contributes 0. -/
def costField : Nat → CSchema → List (String × GValue) → List (String × QFragment) →
    String → QField → Nat
  | 0, _, _, _, _, _ => 0
  | n + 1, sch, vars, frags, tname, f =>
    match findCField sch tname f.name with
    | none => 0
    | some (dt, d) =>
      let parts := costSet n sch vars frags d.retType f.sels
      complexityOf sch dt d + multVal vars d f.args * parts.1 + parts.2

/-- Walk one selection set, producing the accumulator: excluded nodes
contribute nothing; fields go to the mult or flat part by their own
useMultipliers flag; trivial fragments (condition absent or equal to the
enclosing type name) are spliced; non-trivial fragments are costed
against their condition type and grouped by condition name; an unknown
spread contributes nothing. -/
def costParts : Nat → CSchema → List (String × GValue) → List (String × QFragment) →
    String → List QSel → CAcc
  | 0, _, _, _, _, _ => ⟨0, 0, []⟩
  | _ + 1, _, _, _, _, [] => ⟨0, 0, []⟩
  | n + 1, sch, vars, frags, tname, sel :: rest =>
    let tail := costParts n sch vars frags tname rest
    match sel with
    | .field f =>
      if costExcluded vars f.directives then tail
      else
        match findCField sch tname f.name with
        | none => tail
        | some (_, d) =>
          let c := costField n sch vars frags tname f
          if d.useMultipliers then { tail with mult := c + tail.mult }
          else { tail with flat := c + tail.flat }
    | .inlineFrag ds frag =>
      if costExcluded vars ds then tail
      else if frag.onType == "" || frag.onType == tname then
        let parts := costSet n sch vars frags tname frag.sels
        { tail with mult := parts.1 + tail.mult, flat := parts.2 + tail.flat }
      else
        let parts := costSet n sch vars frags frag.onType frag.sels
        { tail with groups := addGroup tail.groups frag.onType (parts.1 + parts.2) }
    | .spread nm ds =>
      if costExcluded vars ds then tail
      else
        match frags.lookup nm with
        | none => tail
        | some frag =>
          if frag.onType == "" || frag.onType == tname then
            let parts := costSet n sch vars frags tname frag.sels
            { tail with mult := parts.1 + tail.mult, flat := parts.2 + tail.flat }
          else
            let parts := costSet n sch vars frags frag.onType frag.sels
            { tail with groups := addGroup tail.groups frag.onType (parts.1 + parts.2) }

/-- Cost of a selection set as the pair (multiplier-subject, exempt): the
maximum fragment group joins the multiplier-subject part. -/
def costSet : Nat → CSchema → List (String × GValue) → List (String × QFragment) →
    String → List QSel → Nat × Nat
  | 0, _, _, _, _, _ => (0, 0)
  | n + 1, sch, vars, frags, tname, sels =>
    let a := costParts n sch vars frags tname sels
    (a.mult + groupMax a.groups, a.flat)

end

/-- Total cost of a selection set against an enclosing type. -/
def costTotal (n : Nat) (sch : CSchema) (vars : List (String × GValue))
    (frags : List (String × QFragment)) (tname : String) (sels : List QSel) : Nat :=
  (costSet n sch vars frags tname sels).1 + (costSet n sch vars frags tname sels).2

/-- validation.estimateCost: total cost of the operation's selections
against the schema's entry-point type. -/
def estimateCost (n : Nat) (sch : CSchema) (vars : List (String × GValue))
    (frags : List (String × QFragment)) (entry : String) (sels : List QSel) : Nat :=
  costTotal n sch vars frags entry sels

/-! Query-construction shorthands used by the concrete instances below. -/

def qf (name : String) (sels : List QSel) : QSel := .field ⟨name, name, [], [], sels⟩

def qfa (name : String) (args : List (String × GValue)) (sels : List QSel) : QSel :=
  .field ⟨name, name, args, [], sels⟩

def qinline (onT : String) (sels : List QSel) : QSel := .inlineFrag [] ⟨onT, sels⟩

def qspread (n : String) : QSel := .spread n []

/-! The validation test schema (`simpleCostSchema` of the cost test file)
and the test queries, with the expected value of every test case proved.
These seven theorems ground the estimator model in the repository's own
test table. -/

def costSchema : CSchema := [
  .obj "Query" [⟨"characters", some 1, [], true, "FriendOrEnemy"⟩] [],
  .iface "Friend" [⟨"name", some 1, [], true, "String"⟩],
  .obj "Enemy" [⟨"name", none, [], true, "String"⟩,
      ⟨"weapon", some 9, [], true, "String"⟩] ["Friend"],
  .union "FriendOrEnemy" ["Character", "Enemy"],
  .obj "FriendConnection" [⟨"totalCount", some 1, [], false, "Int"⟩,
      ⟨"nodes", none, [], true, "Character"⟩] [],
  .obj "Character" [⟨"id", some 1, [], true, "ID"⟩, ⟨"name", some 2, [], true, "String"⟩,
      ⟨"friends", none, ["first", "last"], true, "Friend"⟩,
      ⟨"bestFriends", some 3, ["first"], true, "FriendConnection"⟩] ["Friend"]]

def ffFrags : List (String × QFragment) :=
  [("friendsFields", ⟨"Character", [qf "id" [], qf "name" []]⟩),
   ("enemyFields", ⟨"Enemy", [qf "name" [], qf "weapon" []]⟩)]

def qComplex : List QSel := [
  qf "characters" [
    qf "name" [],
    qinline "Character" [
      qf "id" [],
      qfa "friends" [("first", .vint 4), ("last", .vint 2)] [
        qinline "Character" [
          qf "friends" [
            qinline "Character" [
              qf "friends" [
                qspread "friendsFields",
                qinline "Character" [
                  qfa "bestFriends" [("first", .vint 2)] [
                    qf "totalCount" [],
                    qf "nodes" [qspread "friendsFields"]]]]]]]]],
    qspread "enemyFields"]]

/-- Test case "complex": expected cost 82. -/
theorem costEval_complex : estimateCost 100 costSchema [] ffFrags "Query" qComplex = 82 := by
  decide

def qUseMult : List QSel := [
  qf "characters" [
    qinline "Character" [
      qfa "bestFriends" [("first", .vint 5)] [
        qf "totalCount" [],
        qf "nodes" [qspread "friendsFields"]]]]]

/-- Test case "useMultipliers false on one field": expected
`(1+2)*5 + 1 + 3 + 1 = 20`. -/
theorem costEval_useMultipliers : estimateCost 100 costSchema [] ffFrags "Query" qUseMult = 20 := by
  decide

def qIfaceComp : List QSel := [qf "characters" [qinline "Enemy" [qf "name" []]]]

/-- Test case "takes complexity from interface if type has no annotation":
expected `1 + 1 = 2`. -/
theorem costEval_ifaceComplexity :
    estimateCost 100 costSchema [] ffFrags "Query" qIfaceComp = 2 := by decide

def qSumsMult : List QSel := [
  qf "characters" [
    qinline "Character" [
      qfa "friends" [("first", .vint 5), ("last", .vint 10)] [qf "name" []]]]]

/-- Test case "sums up multipliers": expected `1*(5+10) + 1 = 16`. -/
theorem costEval_sumsMultipliers :
    estimateCost 100 costSchema [] ffFrags "Query" qSumsMult = 16 := by decide

def chFrags : List (String × QFragment) :=
  [("CharacterFields", ⟨"Character", [qf "id" [], qf "name" []]⟩)]

def qFromFrag : List QSel := [qf "characters" [qspread "CharacterFields"]]

/-- Test case "cost from fragment": expected `(1+2) + 1 = 4`. -/
theorem costEval_fromFragment :
    estimateCost 100 costSchema [] chFrags "Query" qFromFrag = 4 := by decide

def frFrags : List (String × QFragment) := [("FriendFields", ⟨"Friend", [qf "name" []]⟩)]

def qFromFragIface : List QSel := [qf "characters" [qspread "FriendFields"]]

/-- Test case "cost from fragment on interface": expected `1 + 1 = 2`. -/
theorem costEval_fromFragmentIface :
    estimateCost 100 costSchema [] frFrags "Query" qFromFragIface = 2 := by decide

def qUnionMax : List QSel := [
  qf "characters" [qinline "Friend" [qf "name" []], qinline "Enemy" [qf "weapon" []]]]

/-- Test case "takes cost from more expensive union type": expected
`9 + 1 = 10`. -/
theorem costEval_unionMax : estimateCost 100 costSchema [] [] "Query" qUnionMax = 10 := by decide

def qLimit : List QSel := [
  qf "characters" [qinline "Character" [qfa "friends" [("first", .vint 100)] [qf "name" []]]]]

/-- The cost-limit test: the query whose cost the test asserts exceeds a
limit of 100 evaluates to 101. -/
theorem costEval_limit : estimateCost 100 costSchema [] [] "Query" qLimit = 101 := by decide

/-- The multiplier rule exactly as the claim words it (a refinement
definition following the spec's words, kept for comparison with the
estimator): the field's contribution is its complexity multiplied by the
product of the integer values of the multiplier arguments actually
supplied, an absent multiplier argument contributing a factor 1; when
multiplier use is disabled, the flat complexity. -/
def productRuleContribution (sch : CSchema) (vars : List (String × GValue))
    (tname : String) (f : QField) : Nat :=
  match findCField sch tname f.name with
  | none => 0
  | some (dt, d) =>
    if d.useMultipliers then
      complexityOf sch dt d *
        (d.multipliers.map (fun m =>
          match (f.args.lookup m).map (resolveValue vars) with
          | some (.vint k) => k.toNat
          | _ => 1)).prod
    else complexityOf sch dt d

/-- The `friends(first: 5, last: 10) { name }` occurrence of the
"sums up multipliers" test case. -/
def friendsOcc : QField :=
  ⟨"friends", "friends", [("first", .vint 5), ("last", .vint 10)], [], [qf "name" []]⟩

/-- The Character type and the friends declaration of the test schema. -/
def charT : CType :=
  .obj "Character" [⟨"id", some 1, [], true, "ID"⟩, ⟨"name", some 2, [], true, "String"⟩,
      ⟨"friends", none, ["first", "last"], true, "Friend"⟩,
      ⟨"bestFriends", some 3, ["first"], true, "FriendConnection"⟩] ["Friend"]

def friendsD : CField := ⟨"friends", none, ["first", "last"], true, "Friend"⟩

/-! Characterization apparatus for cost aggregation over one selection
set, used to state and prove the branch-maximum property independently of
the accumulator in `costParts`. Fuel is threaded with the same
per-element discipline as in `costParts`. -/

/-- Does every fragment of the set narrow non-trivially (condition present
and different from the enclosing type name), with every spread resolving? -/
def allNonTrivial (frags : List (String × QFragment)) (tname : String)
    (sels : List QSel) : Bool :=
  sels.all (fun sel =>
    match sel with
    | .field _ => true
    | .inlineFrag _ frag => frag.onType != "" && frag.onType != tname
    | .spread nm _ =>
      match frags.lookup nm with
      | some frag => frag.onType != "" && frag.onType != tname
      | none => false)

/-- Contributions of the plain fields of a set (outside any fragment),
split into the multiplier-subject and exempt parts. -/
def fieldContribParts : Nat → CSchema → List (String × GValue) → List (String × QFragment) →
    String → List QSel → Nat × Nat
  | 0, _, _, _, _, _ => (0, 0)
  | _ + 1, _, _, _, _, [] => (0, 0)
  | n + 1, sch, vars, frags, tname, sel :: rest =>
    let t := fieldContribParts n sch vars frags tname rest
    match sel with
    | .field f =>
      if costExcluded vars f.directives then t
      else
        match findCField sch tname f.name with
        | none => t
        | some (_, d) =>
          if d.useMultipliers then (costField n sch vars frags tname f + t.1, t.2)
          else (t.1, costField n sch vars frags tname f + t.2)
    | _ => t

/-- The fragment branches of a set, in order: each non-excluded fragment
contributes its condition name with the total cost of its selections
against that condition type. -/
def branchList : Nat → CSchema → List (String × GValue) → List (String × QFragment) →
    List QSel → List (String × Nat)
  | 0, _, _, _, _ => []
  | _ + 1, _, _, _, [] => []
  | n + 1, sch, vars, frags, sel :: rest =>
    (match sel with
     | .field _ => []
     | .inlineFrag ds frag =>
       if costExcluded vars ds then []
       else [(frag.onType, costTotal n sch vars frags frag.onType frag.sels)]
     | .spread nm ds =>
       if costExcluded vars ds then []
       else
         match frags.lookup nm with
         | some frag => [(frag.onType, costTotal n sch vars frags frag.onType frag.sels)]
         | none => []) ++ branchList n sch vars frags rest

/-- Maximum of a list of costs, 0 when empty. -/
def maxList : List Nat → Nat
  | [] => 0
  | x :: rest => max x (maxList rest)

/-- Folding a branch list into groups, right to left, mirroring the
order in which `costParts` builds its accumulator. -/
def foldG (l : List (String × Nat)) : List (String × Nat) :=
  l.foldr (fun p g => addGroup g p.1 p.2) []

theorem addGroup_of_not_mem (g : List (String × Nat)) (k : String) (v : Nat)
    (h : k ∉ g.map Prod.fst) : addGroup g k v = g ++ [(k, v)] := by
  induction g with
  | nil => rfl
  | cons p rest ih =>
    obtain ⟨k', v'⟩ := p
    simp only [List.map_cons, List.mem_cons] at h
    push_neg at h
    have hk : (k' == k) = false := beq_eq_false_iff_ne.mpr (fun hh => h.1 hh.symm)
    simp [addGroup, hk, ih h.2]

theorem mem_addGroup_keys {x : String} (g : List (String × Nat)) (k : String) (v : Nat)
    (h : x ∈ (addGroup g k v).map Prod.fst) : x ∈ g.map Prod.fst ∨ x = k := by
  induction g with
  | nil =>
    simp only [addGroup, List.map_cons, List.map_nil, List.mem_singleton] at h
    exact Or.inr h
  | cons p rest ih =>
    obtain ⟨k', v'⟩ := p
    by_cases hk : (k' == k) = true
    · simp only [addGroup, hk, if_pos, List.map_cons] at h
      exact Or.inl h
    · simp only [addGroup, hk, Bool.false_eq_true, if_false, List.map_cons,
        List.mem_cons] at h
      rcases h with h | h
      · exact Or.inl (List.mem_cons.mpr (Or.inl h))
      · rcases ih h with h' | h'
        · exact Or.inl (List.mem_cons.mpr (Or.inr h'))
        · exact Or.inr h'

theorem groupMax_append (g1 g2 : List (String × Nat)) :
    groupMax (g1 ++ g2) = max (groupMax g1) (groupMax g2) := by
  induction g1 with
  | nil => simp [groupMax]
  | cons p rest ih =>
    obtain ⟨k, v⟩ := p
    simp [groupMax, ih, Nat.max_assoc]

theorem mem_foldG_keys {x : String} (l : List (String × Nat))
    (h : x ∈ (foldG l).map Prod.fst) : x ∈ l.map Prod.fst := by
  induction l with
  | nil => simp [foldG] at h
  | cons p rest ih =>
    have hstep : x ∈ (addGroup (foldG rest) p.1 p.2).map Prod.fst := by
      simpa [foldG] using h
    rcases mem_addGroup_keys _ _ _ hstep with h' | h'
    · simp only [List.map_cons, List.mem_cons]
      exact Or.inr (ih h')
    · simp [h']

theorem groupMax_foldG (l : List (String × Nat)) (h : (l.map Prod.fst).Nodup) :
    groupMax (foldG l) = maxList (l.map Prod.snd) := by
  induction l with
  | nil => rfl
  | cons p rest ih =>
    simp only [List.map_cons, List.nodup_cons] at h
    have hk : p.1 ∉ (foldG rest).map Prod.fst := fun hmem => h.1 (mem_foldG_keys rest hmem)
    show groupMax (addGroup (foldG rest) p.1 p.2) = maxList (p.2 :: rest.map Prod.snd)
    rw [addGroup_of_not_mem _ _ _ hk, groupMax_append, ih h.2]
    simp [groupMax, maxList, Nat.max_comm]

theorem costParts_char : ∀ (n : Nat) (sch : CSchema) (vars : List (String × GValue))
    (frags : List (String × QFragment)) (tname : String) (sels : List QSel),
    allNonTrivial frags tname sels = true →
    costParts n sch vars frags tname sels =
      ⟨(fieldContribParts n sch vars frags tname sels).1,
       (fieldContribParts n sch vars frags tname sels).2,
       foldG (branchList n sch vars frags sels)⟩ := by
  intro n
  induction n with
  | zero => intro sch vars frags tname sels _; rfl
  | succ n ih =>
    intro sch vars frags tname sels h
    cases sels with
    | nil => rfl
    | cons sel rest =>
      simp only [allNonTrivial, List.all_cons, Bool.and_eq_true] at h
      obtain ⟨hsel, hrest⟩ := h
      have hR := ih sch vars frags tname rest hrest
      cases sel with
      | field f =>
        simp only [costParts, fieldContribParts, branchList, hR]
        by_cases hexc : costExcluded vars f.directives
        · simp [hexc, foldG]
        · simp only [hexc, Bool.false_eq_true, if_false]
          cases hfind : findCField sch tname f.name with
          | none => simp [foldG]
          | some p =>
            obtain ⟨dt, d⟩ := p
            cases hum : d.useMultipliers <;> simp [foldG, hum]
      | inlineFrag ds frag =>
        simp only [Bool.and_eq_true, bne_iff_ne, ne_eq] at hsel
        have hcond : (frag.onType == "" || frag.onType == tname) = false := by
          simp [hsel.1, hsel.2]
        simp only [costParts, fieldContribParts, branchList, hR]
        by_cases hexc : costExcluded vars ds
        · simp [hexc, foldG]
        · simp [hexc, hcond, foldG, costTotal]
      | spread nm ds =>
        cases hl : frags.lookup nm with
        | none => simp [hl] at hsel
        | some frag =>
          simp only [hl, Bool.and_eq_true, bne_iff_ne, ne_eq] at hsel
          have hcond : (frag.onType == "" || frag.onType == tname) = false := by
            simp [hsel.1, hsel.2]
          simp only [costParts, fieldContribParts, branchList, hR, hl]
          by_cases hexc : costExcluded vars ds
          · simp [hexc, foldG]
          · simp [hexc, hcond, foldG, costTotal]

/-- Claim C3 (counterexample): on the `friends(first: 5, last: 10) { name }`
occurrence of the "sums up multipliers" test case, the estimator's
contribution for the field is 15 (complexity 0, plus the sum 5+10 of the
supplied multiplier values times the sub-selection cost 1), whereas the
claimed complexity-times-product rule yields 0 (or 1 after adding the
children's cost); the claim as stated is false at this input. -/
theorem claim_C3_cex :
    costField 50 costSchema [] [] "Character" friendsOcc = 15 ∧
    productRuleContribution costSchema [] "Character" friendsOcc = 0 ∧
    productRuleContribution costSchema [] "Character" friendsOcc
        + costTotal 49 costSchema [] [] friendsD.retType friendsOcc.sels = 1 ∧
    costField 50 costSchema [] [] "Character" friendsOcc ≠
      productRuleContribution costSchema [] "Character" friendsOcc ∧
    costField 50 costSchema [] [] "Character" friendsOcc ≠
      productRuleContribution costSchema [] "Character" friendsOcc
        + costTotal 49 costSchema [] [] friendsD.retType friendsOcc.sels :=
  ⟨by decide, by decide, by decide, by decide, by decide⟩

/-- Claim C3 (amended): the contribution of a field that resolves to
declaration `d` is its base complexity, plus the field's multiplier factor
times the multiplier-subject part of its sub-selection cost, plus the
exempt part unscaled — where the multiplier factor is the SUM (not the
product) of the integer values of the multiplier arguments actually
supplied, is 1 when no multiplier argument is supplied, and is 1 (the flat
complexity, multiplier ignored) when multiplier use is disabled for the
field. -/
theorem claim_C3_amended (n : Nat) (sch : CSchema) (vars : List (String × GValue))
    (frags : List (String × QFragment)) (tname : String) (f : QField)
    (dt : CType) (d : CField) (hfind : findCField sch tname f.name = some (dt, d)) :
    costField (n + 1) sch vars frags tname f =
      complexityOf sch dt d
        + multVal vars d f.args * (costSet n sch vars frags d.retType f.sels).1
        + (costSet n sch vars frags d.retType f.sels).2
    ∧ (d.useMultipliers = false → multVal vars d f.args = 1)
    ∧ (suppliedMultVals vars d f.args = [] → multVal vars d f.args = 1)
    ∧ (d.useMultipliers = true → d.multipliers ≠ [] →
        suppliedMultVals vars d f.args ≠ [] →
        multVal vars d f.args = (suppliedMultVals vars d f.args).sum) := by
  refine ⟨?_, ?_, ?_, ?_⟩
  · simp only [costField, hfind]
  · intro h
    simp [multVal, h]
  · intro h
    by_cases hg : (d.multipliers.isEmpty || !d.useMultipliers) = true
    · simp [multVal, hg]
    · simp [multVal, hg, h]
  · intro h1 h2 h3
    have hge : d.multipliers.isEmpty = false := by
      cases hm : d.multipliers with
      | nil => exact absurd hm h2
      | cons a b => simp [List.isEmpty]
    have hne : (suppliedMultVals vars d f.args).isEmpty = false := by
      cases hv : suppliedMultVals vars d f.args with
      | nil => exact absurd hv h3
      | cons a b => simp [List.isEmpty]
    simp [multVal, hge, h1, hne]

/-- Claim C3 (witness): the amended equation instantiated at the
"sums up multipliers" occurrence. -/
theorem claim_C3_witness :
    costField 50 costSchema [] [] "Character" friendsOcc =
      complexityOf costSchema charT friendsD
        + multVal [] friendsD friendsOcc.args *
            (costSet 49 costSchema [] [] friendsD.retType friendsOcc.sels).1
        + (costSet 49 costSchema [] [] friendsD.retType friendsOcc.sels).2 :=
  (claim_C3_amended 49 costSchema [] [] "Character" friendsOcc charT friendsD (by decide)).1

/-- Claim C4: when every fragment of a selection set narrows non-trivially
and the branches' condition types are pairwise distinct with at least two
branches, the set's total cost is the sum of the contributions of the
fields at that level outside any fragment (each added exactly once) plus
the MAXIMUM of the branches' costs — not their sum. -/
theorem claim_C4 (n : Nat) (sch : CSchema) (vars : List (String × GValue))
    (frags : List (String × QFragment)) (tname : String) (sels : List QSel)
    (hnt : allNonTrivial frags tname sels = true)
    (hnd : ((branchList n sch vars frags sels).map Prod.fst).Nodup)
    (h2 : 2 ≤ (branchList n sch vars frags sels).length) :
    costTotal (n + 1) sch vars frags tname sels =
      ((fieldContribParts n sch vars frags tname sels).1
        + (fieldContribParts n sch vars frags tname sels).2)
      + maxList ((branchList n sch vars frags sels).map Prod.snd) := by
  have hc := costParts_char n sch vars frags tname sels hnt
  simp only [costTotal, costSet, hc]
  rw [groupMax_foldG _ hnd]
  omega

/-- Claim C4 (witness): a union-typed enclosing set with one shared field
costing 1 and two inline-fragment branches costing 3 and 9 estimates to
1 + max(3, 9) = 10 — not 3 + 9 + 1 = 13. -/
def uSchema : CSchema := [.union "U" ["A", "B"],
  .obj "A" [⟨"s", some 1, [], true, "Int"⟩, ⟨"x", some 3, [], true, "Int"⟩] [],
  .obj "B" [⟨"y", some 9, [], true, "Int"⟩] []]

def uSels : List QSel := [qf "s" [], qinline "A" [qf "x" []], qinline "B" [qf "y" []]]

theorem claim_C4_witness : costTotal 20 uSchema [] [] "U" uSels = 10 := by
  have h := claim_C4 19 uSchema [] [] "U" uSels (by decide) (by decide) (by decide)
  rw [h]
  decide

/-! Concrete fixtures for the selection-resolution claims. -/

/-- Is some element of the sequence a TypeAssertion node? -/
def containsTypeAssertion (sels : List Selection) : Bool :=
  sels.any (fun s => match s with | .typeAssertion _ _ => true | _ => false)

def metaFieldFix : RField := ⟨false, false, none, .rscalar⟩

def metaObjFix : RObject := ⟨"__M", [], []⟩

def rsFix : RSchema := ⟨⟨metaFieldFix, metaFieldFix, metaObjFix, metaObjFix⟩⟩

def sObjA : SObj := ⟨"A", []⟩

def objA : RObject := ⟨"A", [], []⟩

def taA : RTypeAssertion := ⟨.robj objA⟩

/-- A resolvable object for the union type U with member A and its
type-assertion entry. -/
def objU : RObject := ⟨"U", [], [("A", taA)]⟩

def req0 : Request := ⟨[("U", .union "U" [sObjA]), ("A", .obj sObjA)], [], [], false, []⟩

/-- A fragment whose condition trivially equals the enclosing type's name
"U", but whose body holds a nested fragment narrowing to the member A. -/
def fragU : QFragment := ⟨"U", [qinline "A" []]⟩

/-- Claim C1 (counterexample): the fragment `fragU` has a trivial type
condition (it equals the enclosing type's name), its resolution equals the
direct resolution of its selection set — yet a TypeAssertion node DOES
appear among the results, produced by the nested non-trivial fragment in
its body; the claim's "no TypeAssertion node appears among the results"
conjunct is false at this input. -/
theorem claim_C1_cex :
    (fragU.onType = "" ∨ fragU.onType = objU.name) ∧
    applyFragment 10 req0 rsFix objU fragU = .ok (req0, [.typeAssertion taA []]) ∧
    applySelectionSet 9 req0 rsFix objU fragU.sels = .ok (req0, [.typeAssertion taA []]) ∧
    containsTypeAssertion [.typeAssertion taA []] = true :=
  ⟨Or.inr rfl, by with_unfolding_all rfl, by with_unfolding_all rfl, rfl⟩

/-- Claim C1 (amended): for a fragment whose type condition is absent or
equals the enclosing type's name, provided the enclosing type resolves in
the schema and the narrowing precheck's intersection is non-empty (the
source panics otherwise, which the spec calls an upstream-validation
invariant), resolving the fragment is exactly resolving its selection set
directly against the enclosing type — no TypeAssertion wrapper is added
for the fragment itself, though TypeAssertions may still appear from
nested non-trivial fragments inside the selection set. -/
theorem claim_C1_amended (n : Nat) (r : Request) (s : RSchema) (e : RObject)
    (frag : QFragment) (htriv : frag.onType = "" ∨ frag.onType = e.name)
    (pt : SType) (hpt : r.schema.lookup e.name = some pt)
    (hne : (applicableTypesFor r frag pt).isEmpty = false) :
    applyFragment (n + 1) r s e frag = applySelectionSet n r s e frag.sels := by
  have hcond : (frag.onType != "" && frag.onType != e.name) = false := by
    rcases htriv with h | h <;> simp [h]
  simp only [applyFragment, hpt, hne, hcond, applySelectionSet, Bool.false_eq_true,
    if_false]

/-- Claim C1 (witness): the amended equation at the concrete trivial
fragment `fragU`. -/
theorem claim_C1_witness :
    applyFragment 10 req0 rsFix objU fragU = applySelectionSet 9 req0 rsFix objU fragU.sels :=
  claim_C1_amended 9 req0 rsFix objU fragU (Or.inr rfl) (.union "U" [sObjA])
    (by with_unfolding_all rfl) (by decide)

/-! Fixtures for the argument-packing claims: an object T with a packable
field g and a field b whose packer always fails. -/

def feG : RField := ⟨false, false, none, .rscalar⟩

def feB : RField := ⟨false, false, some (fun _ => .error "boom"), .rscalar⟩

def objT : RObject := ⟨"T", [("g", feG), ("b", feB)], []⟩

def reqT : Request := ⟨[("T", .obj ⟨"T", []⟩)], [], [], false, []⟩

/-- Claim C2 (counterexample): in the set `[g, b, h]` where packing b's
arguments fails, resolution records the error but returns the sibling
ALREADY BUILT (g) — the result is not empty, contradicting the claim that
the whole enclosing set comes back empty with earlier siblings discarded.
(The later sibling h is never processed.) -/
theorem claim_C2_cex :
    applySelectionSet 10 reqT rsFix objT [qf "g" [], qf "b" [], qf "h" []] =
      .ok ({ reqT with errs := ["boom"] },
        [.schemaField feG "g" [] [] false .noneR]) ∧
    [Selection.schemaField feG "g" [] [] false .noneR] ≠ ([] : List Selection) :=
  ⟨by with_unfolding_all rfl, by simp⟩

/-- Claim C2 (amended): when packing the arguments of an ordinary field
fails, resolution records exactly one error on the sink and aborts the
REMAINDER of the enclosing selection set: the selections built before the
failing field are kept and returned, while the failing field and every
later sibling contribute nothing. -/
theorem claim_C2_amended (n : Nat) (r r1 : Request) (s : RSchema) (e : RObject)
    (f : QField) (rest : List QSel) (acc : List Selection) (fe : RField)
    (p : List (String × GValue) → Except String Unit) (msg : String)
    (hskip : skipByDirective r f.directives = .ok (r1, false))
    (h1 : f.name ≠ "__typename") (h2 : f.name ≠ "__schema") (h3 : f.name ≠ "__type")
    (hlk : e.fields.lookup f.name = some fe)
    (hp : fe.argsPacker = some p)
    (hfail : p (f.args.map (fun a => (a.1, resolveValue r1.vars a.2))) = .error msg) :
    applySelAux (n + 1) r s e (.field f :: rest) acc = .ok (addError r1 msg, acc) := by
  have e1 : (f.name == "__typename") = false := beq_eq_false_iff_ne.mpr h1
  have e2 : (f.name == "__schema") = false := beq_eq_false_iff_ne.mpr h2
  have e3 : (f.name == "__type") = false := beq_eq_false_iff_ne.mpr h3
  simp only [applySelAux, hskip, e1, e2, e3, Bool.false_eq_true, if_false, hlk, hp,
    hfail]

/-- The field occurrence b with the always-failing packer. -/
def bOcc : QField := ⟨"b", "b", [], [], []⟩

/-- Claim C2 (witness): the amended statement at the concrete failing
field, with the already-built sibling selection for g as accumulator. -/
theorem claim_C2_witness :
    applySelAux 10 reqT rsFix objT [QSel.field bOcc]
        [Selection.schemaField feG "g" [] [] false .noneR] =
      .ok (addError reqT "boom", [Selection.schemaField feG "g" [] [] false .noneR]) :=
  claim_C2_amended 9 reqT reqT rsFix objT bOcc []
    [Selection.schemaField feG "g" [] [] false .noneR] feB
    (fun _ => .error "boom") "boom" (by with_unfolding_all rfl) (by decide) (by decide)
    (by decide) (by with_unfolding_all rfl) rfl rfl

/-! Claim C5: directive evaluation. -/

/-- A directive list whose skip if-argument fails to pack while the
include if-argument packs to false. -/
def dsC5 : List Directive := [⟨"skip", [("if", .vstr "x")]⟩, ⟨"include", [("if", .vbool false)]⟩]

/-- Claim C5 (counterexample): when the skip directive's if argument fails
to pack but an include directive whose if packs to false is also present,
the node IS excluded (an error is recorded and evaluation falls through to
the include check) — contradicting the claim that a packing failure makes
directive evaluation return non-exclusion. -/
theorem claim_C5_cex :
    skipByDirective req0 dsC5 =
      .ok ({ req0 with errs := ["cannot pack value as boolean"] }, true) ∧
    (∀ r' : Request, skipByDirective req0 dsC5 ≠ .ok (r', false)) := by
  have h1 : skipByDirective req0 dsC5 =
      .ok ({ req0 with errs := ["cannot pack value as boolean"] }, true) := by
    with_unfolding_all rfl
  refine ⟨h1, ?_⟩
  intro r' h
  rw [h1] at h
  simp at h

/-- The skip directive's verdict alone: present, if packs to true. -/
def skipVerdict (vars : List (String × GValue)) (ds : List Directive) : Bool :=
  match ds.find? (fun d => d.name == "skip") with
  | some d =>
    match d.args.lookup "if" with
    | some raw => match packBool (resolveValue vars raw) with | .ok b => b | .error _ => false
    | none => false
  | none => false

/-- The include directive's verdict alone: present, if packs to false. -/
def includeVerdict (vars : List (String × GValue)) (ds : List Directive) : Bool :=
  match ds.find? (fun d => d.name == "include") with
  | some d =>
    match d.args.lookup "if" with
    | some raw => match packBool (resolveValue vars raw) with | .ok b => !b | .error _ => false
    | none => false
  | none => false

/-- Errors the include half records: a pack failure of a present include's
if argument. -/
def includeErrors (vars : List (String × GValue)) (ds : List Directive) : List String :=
  match ds.find? (fun d => d.name == "include") with
  | some d =>
    match d.args.lookup "if" with
    | some raw => match packBool (resolveValue vars raw) with | .error m => [m] | .ok _ => []
    | none => []
  | none => []

/-- All errors directive evaluation records: a failing skip pack first,
then — unless skip already packed to true — the include half's errors. -/
def dirErrors (vars : List (String × GValue)) (ds : List Directive) : List String :=
  match ds.find? (fun d => d.name == "skip") with
  | some d =>
    match d.args.lookup "if" with
    | some raw =>
      match packBool (resolveValue vars raw) with
      | .error m => m :: includeErrors vars ds
      | .ok true => []
      | .ok false => includeErrors vars ds
    | none => []
  | none => includeErrors vars ds

theorem includeStep_char (r : Request) (ds : List Directive)
    (hi : ∀ d, ds.find? (fun x => x.name == "include") = some d →
      (d.args.lookup "if").isSome = true) :
    includeStep r ds =
      .ok ({ r with errs := r.errs ++ includeErrors r.vars ds }, includeVerdict r.vars ds) := by
  cases hks : ds.find? (fun x => x.name == "include") with
  | none => simp [includeStep, includeErrors, includeVerdict, hks]
  | some d =>
    cases hlk : d.args.lookup "if" with
    | none => have := hi d hks; rw [hlk] at this; simp at this
    | some raw =>
      cases hp : packBool (resolveValue r.vars raw) with
      | error m => simp [includeStep, includeErrors, includeVerdict, hks, hlk, hp, addError]
      | ok b =>
        cases b <;>
          simp [includeStep, includeErrors, includeVerdict, hks, hlk, hp]

/-- Claim C5 (amended): provided every present skip/include directive
carries an if argument (MustGet panics otherwise), directive evaluation
returns: excluded iff the skip directive's if packs to true, or —
otherwise — the include directive's if packs to false; a pack failure
makes that directive alone vote non-exclusion and appends its error to the
sink (skip's error first, include's error recorded unless skip already
packed to true), so a skip packing failure combined with an include whose
if packs to false still excludes the node. -/
theorem claim_C5_amended (r : Request) (ds : List Directive)
    (hs : ∀ d, ds.find? (fun x => x.name == "skip") = some d →
      (d.args.lookup "if").isSome = true)
    (hi : ∀ d, ds.find? (fun x => x.name == "include") = some d →
      (d.args.lookup "if").isSome = true) :
    skipByDirective r ds =
      .ok ({ r with errs := r.errs ++ dirErrors r.vars ds },
        skipVerdict r.vars ds || includeVerdict r.vars ds) := by
  cases hks : ds.find? (fun x => x.name == "skip") with
  | none =>
    rw [show skipByDirective r ds = includeStep r ds from by simp [skipByDirective, hks]]
    rw [includeStep_char r ds hi]
    simp [dirErrors, skipVerdict, hks]
  | some d =>
    cases hlk : d.args.lookup "if" with
    | none => have := hs d hks; rw [hlk] at this; simp at this
    | some raw =>
      cases hp : packBool (resolveValue r.vars raw) with
      | error m =>
        rw [show skipByDirective r ds = includeStep (addError r m) ds from by
          simp [skipByDirective, hks, hlk, hp]]
        rw [includeStep_char (addError r m) ds hi]
        simp [dirErrors, skipVerdict, hks, hlk, hp, addError]
      | ok b =>
        cases b with
        | true =>
          rw [show skipByDirective r ds = .ok (r, true) from by
            simp [skipByDirective, hks, hlk, hp]]
          simp [dirErrors, skipVerdict, hks, hlk, hp]
        | false =>
          rw [show skipByDirective r ds = includeStep r ds from by
            simp [skipByDirective, hks, hlk, hp]]
          rw [includeStep_char r ds hi]
          simp [dirErrors, skipVerdict, hks, hlk, hp]

/-- Claim C5 (witness): the amended characterization at the concrete
skip-fails-include-false directive list. -/
theorem claim_C5_witness :
    skipByDirective req0 dsC5 =
      .ok ({ req0 with errs := req0.errs ++ dirErrors req0.vars dsC5 },
        skipVerdict req0.vars dsC5 || includeVerdict req0.vars dsC5) := by
  refine claim_C5_amended req0 dsC5 ?_ ?_ <;> intro d h
  · rw [show dsC5.find? (fun x => x.name == "skip") =
        some ⟨"skip", [("if", GValue.vstr "x")]⟩ from by with_unfolding_all rfl] at h
    cases h
    rfl
  · rw [show dsC5.find? (fun x => x.name == "include") =
        some ⟨"include", [("if", GValue.vbool false)]⟩ from by with_unfolding_all rfl] at h
    cases h
    rfl

/-! Claims C7, C8, C9: the ordinary-field and meta-field paths. -/

/-- Claim C7: a successfully resolved ordinary field's Async flag is true
iff the descriptor requires request-context, or declares an argument
packer, or can itself error, or some selection among its recursively
resolved children is an async SchemaField (TypeAssertion children searched
recursively, TypenameField children never contributing) — the
`hasAsyncSel` disjunct of the stated formula. -/
theorem claim_C7 (n : Nat) (r r1 r2 : Request) (s : RSchema) (e : RObject)
    (f : QField) (rest : List QSel) (acc : List Selection) (fe : RField)
    (kids : List Selection)
    (hskip : skipByDirective r f.directives = .ok (r1, false))
    (h1 : f.name ≠ "__typename") (h2 : f.name ≠ "__schema") (h3 : f.name ≠ "__type")
    (hlk : e.fields.lookup f.name = some fe)
    (hpack : ∀ p, fe.argsPacker = some p →
      p (f.args.map (fun a => (a.1, resolveValue r1.vars a.2))) = .ok ())
    (hkids : applyField n r1 s fe.valueExec f.sels = .ok (r2, kids)) :
    ∃ argsOut, applySelAux (n + 1) r s e (.field f :: rest) acc =
      applySelAux n r2 s e rest (acc ++
        [.schemaField fe f.aliasName argsOut kids
          (fe.hasContext || fe.argsPacker.isSome || fe.hasError || hasAsyncSel kids)
          .noneR]) := by
  have e1 : (f.name == "__typename") = false := beq_eq_false_iff_ne.mpr h1
  have e2 : (f.name == "__schema") = false := beq_eq_false_iff_ne.mpr h2
  have e3 : (f.name == "__type") = false := beq_eq_false_iff_ne.mpr h3
  cases hp : fe.argsPacker with
  | none =>
    refine ⟨[], ?_⟩
    simp only [applySelAux, hskip, e1, e2, e3, Bool.false_eq_true, if_false, hlk, hp,
      hkids]
  | some p =>
    refine ⟨f.args.map (fun a => (a.1, resolveValue r1.vars a.2)), ?_⟩
    have hp2 := hpack p hp
    simp only [applySelAux, hskip, e1, e2, e3, Bool.false_eq_true, if_false, hlk, hp,
      hp2, hkids]

/-- The field occurrence g (no packer, no flags, scalar value). -/
def gOcc : QField := ⟨"g", "g", [], [], []⟩

/-- Claim C7 (witness): the async formula at the concrete field g. -/
theorem claim_C7_witness :
    ∃ argsOut, applySelAux 10 reqT rsFix objT [QSel.field gOcc] [] =
      applySelAux 9 reqT rsFix objT []
        ([] ++ [Selection.schemaField feG gOcc.aliasName argsOut []
          (feG.hasContext || feG.argsPacker.isSome || feG.hasError || hasAsyncSel [])
          FixedRes.noneR]) :=
  claim_C7 9 reqT reqT reqT rsFix objT gOcc [] [] feG []
    (by with_unfolding_all rfl) (by decide) (by decide) (by decide)
    (by with_unfolding_all rfl)
    (by intro p hp; simp [feG, RField.argsPacker] at hp)
    (by with_unfolding_all rfl)

/-- The __type occurrence asking for the unknown type name "Nope". -/
def typeOcc : QField := ⟨"__type", "__type", [("name", .vstr "Nope")], [], []⟩

/-- Claim C8 (counterexample): with introspection enabled, a `__type`
field whose name argument names no schema type records no error but
returns the EMPTY list for the whole enclosing set — the sibling g already
built is discarded, contradicting "sibling selections in the same set are
unaffected". -/
theorem claim_C8_cex :
    applySelectionSet 10 reqT rsFix objT [qf "g" [], .field typeOcc] = .ok (reqT, []) ∧
    reqT.errs = [] ∧
    ([] : List Selection) ≠ [Selection.schemaField feG "g" [] [] false .noneR] :=
  ⟨by with_unfolding_all rfl, rfl, by simp⟩

/-- Claim C8 (amended): a `__type` field whose packed name argument names
no schema type records no error and aborts the entire enclosing selection
set, returning the empty list (earlier siblings discarded, later ones
unprocessed); and with introspection disabled, each of `__typename`,
`__schema`, `__type` contributes no selection, resolution simply moving on
to the rest of the set. -/
theorem claim_C8_amended (n : Nat) (r r1 : Request) (s : RSchema) (e : RObject)
    (f : QField) (rest : List QSel) (acc : List Selection)
    (hskip : skipByDirective r f.directives = .ok (r1, false)) :
    (∀ raw tnm, f.name = "__type" → r1.disableIntrospection = false →
      f.args.lookup "name" = some raw →
      packString (resolveValue r1.vars raw) = .ok tnm →
      r1.schema.lookup tnm = none →
      applySelAux (n + 1) r s e (.field f :: rest) acc = .ok (r1, []))
    ∧ ((f.name = "__typename" ∨ f.name = "__schema" ∨ f.name = "__type") →
      r1.disableIntrospection = true →
      applySelAux (n + 1) r s e (.field f :: rest) acc = applySelAux n r1 s e rest acc) := by
  constructor
  · intro raw tnm hn hdis hargs hpk hnone
    have e1 : (f.name == "__typename") = false := by rw [hn]; decide
    have e2 : (f.name == "__schema") = false := by rw [hn]; decide
    have e3 : (f.name == "__type") = true := by rw [hn]; decide
    simp only [applySelAux, hskip, e1, e2, e3, Bool.false_eq_true, if_false, if_true,
      hdis, hargs, hpk, hnone]
  · intro hn hdis
    rcases hn with hn | hn | hn
    · have e1 : (f.name == "__typename") = true := by rw [hn]; decide
      simp only [applySelAux, hskip, e1, if_true, hdis, if_false]
    · have e1 : (f.name == "__typename") = false := by rw [hn]; decide
      have e2 : (f.name == "__schema") = true := by rw [hn]; decide
      simp only [applySelAux, hskip, e1, e2, Bool.false_eq_true, if_false, if_true, hdis]
    · have e1 : (f.name == "__typename") = false := by rw [hn]; decide
      have e2 : (f.name == "__schema") = false := by rw [hn]; decide
      have e3 : (f.name == "__type") = true := by rw [hn]; decide
      simp only [applySelAux, hskip, e1, e2, e3, Bool.false_eq_true, if_false, if_true,
        hdis]

/-- A request with introspection disabled. -/
def reqD : Request := ⟨[("T", .obj ⟨"T", []⟩)], [], [], true, []⟩

/-- The __typename occurrence. -/
def tnOcc : QField := ⟨"__typename", "t", [], [], []⟩

/-- Claim C8 (witness): both amended conjuncts instantiated — the unknown
`__type` name aborting with the empty result, and `__typename` suppressed
under disabled introspection. -/
theorem claim_C8_witness :
    applySelAux 10 reqT rsFix objT [QSel.field typeOcc] [] = .ok (reqT, []) ∧
    applySelAux 10 reqD rsFix objT [QSel.field tnOcc] [] =
      applySelAux 9 reqD rsFix objT [] [] :=
  ⟨(claim_C8_amended 9 reqT reqT rsFix objT typeOcc [] []
      (by with_unfolding_all rfl)).1 (.vstr "Nope") "Nope" rfl rfl
      (by with_unfolding_all rfl) (by with_unfolding_all rfl) (by with_unfolding_all rfl),
   (claim_C8_amended 9 reqD reqD rsFix objT tnOcc [] []
      (by with_unfolding_all rfl)).2 (Or.inl rfl) rfl⟩

/-- Claim C9: resolving a non-meta field whose name is absent from the
enclosing object's field map is not total — the source dereferences the
nil field descriptor (`fe.ArgsPacker` on a nil `fe`) and panics instead of
recording an error or skipping the field. -/
theorem claim_C9 (n : Nat) (r r1 : Request) (s : RSchema) (e : RObject)
    (f : QField) (rest : List QSel) (acc : List Selection)
    (hskip : skipByDirective r f.directives = .ok (r1, false))
    (h1 : f.name ≠ "__typename") (h2 : f.name ≠ "__schema") (h3 : f.name ≠ "__type")
    (hlk : e.fields.lookup f.name = none) :
    applySelAux (n + 1) r s e (.field f :: rest) acc = .error (.nilFieldDeref f.name) := by
  have e1 : (f.name == "__typename") = false := beq_eq_false_iff_ne.mpr h1
  have e2 : (f.name == "__schema") = false := beq_eq_false_iff_ne.mpr h2
  have e3 : (f.name == "__type") = false := beq_eq_false_iff_ne.mpr h3
  simp only [applySelAux, hskip, e1, e2, e3, Bool.false_eq_true, if_false, hlk]

/-- A field occurrence whose name is not in objT's field map. -/
def zOcc : QField := ⟨"zzz", "zzz", [], [], []⟩

/-- Claim C9 (witness): the crash at the concrete unknown field. -/
theorem claim_C9_witness :
    applySelAux 10 reqT rsFix objT [QSel.field zOcc] [] =
      .error (.nilFieldDeref zOcc.name) :=
  claim_C9 9 reqT reqT rsFix objT zOcc [] [] (by with_unfolding_all rfl)
    (by decide) (by decide) (by decide) (by with_unfolding_all rfl)

/-! Claim C6: TypeAssertion deduplication. -/

/-- The concrete object type a TypeAssertion targets, read off its
TypeExec. -/
def taTargetName (ta : RTypeAssertion) : Option String :=
  match ta.typeExec with
  | .robj o => some o.name
  | _ => none

/-- How many top-level TypeAssertion nodes of the sequence target the
named concrete type. -/
def countAssertionsFor (nm : String) (sels : List Selection) : Nat :=
  sels.countP (fun s =>
    match s with
    | .typeAssertion ta _ => taTargetName ta == some nm
    | _ => false)

/-- Claim C6 (counterexample): a single selection set holding two inline
fragments that both narrow the union U to the same concrete member A
resolves to TWO TypeAssertion nodes targeting A — the code performs no
per-set deduplication by target type. -/
theorem claim_C6_cex :
    applySelectionSet 10 req0 rsFix objU [qinline "A" [], qinline "A" []] =
      .ok (req0, [.typeAssertion taA [], .typeAssertion taA []]) ∧
    countAssertionsFor "A" [.typeAssertion taA [], .typeAssertion taA []] = 2 :=
  ⟨by with_unfolding_all rfl, by with_unfolding_all rfl⟩

theorem innerLoop_not_mem (frag : QFragment) : ∀ (iss : List String) (n : Nat)
    (r : Request) (s : RSchema) (e : RObject) (applicable : List SObj) (t : SObj)
    (r' : Request) (out : List Selection),
    frag.onType ∉ iss →
    innerLoop n r s e frag applicable t iss = .ok (r', out) → out = [] := by
  intro iss
  induction iss with
  | nil =>
    intro n r s e applicable t r' out _ hrun
    cases n with
    | zero => simp [innerLoop] at hrun
    | succ n =>
      simp only [innerLoop, Except.ok.injEq, Prod.mk.injEq] at hrun
      exact hrun.2.symm
  | cons i rest ih =>
    intro n r s e applicable t r' out hnm hrun
    cases n with
    | zero => simp [innerLoop] at hrun
    | succ n =>
      have hi : (i == frag.onType) = false := by
        simp only [List.mem_cons, not_or] at hnm
        exact beq_eq_false_iff_ne.mpr (fun hh => hnm.1 hh.symm)
      simp only [innerLoop, hi, Bool.false_eq_true, if_false] at hrun
      exact ih n r s e applicable t r' out (by
        simp only [List.mem_cons, not_or] at hnm; exact hnm.2) hrun

theorem innerLoop_count (frag : QFragment) (e : RObject)
    (hwf : ∀ k ta, e.typeAssertions.lookup k = some ta → taTargetName ta = some k) :
    ∀ (iss : List String) (n : Nat) (r : Request) (s : RSchema)
    (applicable : List SObj) (t : SObj) (r' : Request) (out : List Selection),
    iss.Nodup →
    innerLoop n r s e frag applicable t iss = .ok (r', out) →
    ∀ nm, countAssertionsFor nm out ≤ (if nm = t.name then 1 else 0) := by
  intro iss
  induction iss with
  | nil =>
    intro n r s applicable t r' out _ hrun nm
    cases n with
    | zero => simp [innerLoop] at hrun
    | succ n =>
      simp only [innerLoop, Except.ok.injEq, Prod.mk.injEq] at hrun
      rw [← hrun.2]
      simp [countAssertionsFor]
  | cons i rest ih =>
    intro n r s applicable t r' out hnd hrun nm
    simp only [List.nodup_cons] at hnd
    cases n with
    | zero => simp [innerLoop] at hrun
    | succ n =>
      by_cases hi : (i == frag.onType) = true
      · simp only [innerLoop, hi, if_true] at hrun
        cases hfd : applicable.find? (fun a => a.name == t.name) with
        | none =>
          simp only [hfd] at hrun
          exact ih n r s applicable t r' out hnd.2 hrun nm
        | some a =>
          simp only [hfd] at hrun
          cases hta : e.typeAssertions.lookup a.name with
          | none => simp only [hta] at hrun; simp at hrun
          | some ta =>
            simp only [hta] at hrun
            cases hex : ta.typeExec with
            | robj o =>
              simp only [hex] at hrun
              cases hsel : applySelAux n r s o frag.sels [] with
              | error p => simp only [hsel] at hrun; simp at hrun
              | ok rk =>
                obtain ⟨r2, kids⟩ := rk
                simp only [hsel] at hrun
                cases hrest : innerLoop n r2 s e frag applicable t rest with
                | error p => simp only [hrest] at hrun; simp at hrun
                | ok rm =>
                  obtain ⟨r3, more⟩ := rm
                  simp only [hrest] at hrun
                  simp only [Except.ok.injEq, Prod.mk.injEq] at hrun
                  have hanm : a.name = t.name := by
                    have := List.find?_some hfd
                    exact beq_iff_eq.mp this
                  have htgt : taTargetName ta = some t.name := by
                    rw [← hanm]; exact hwf a.name ta hta
                  have hmore : more = [] := by
                    refine innerLoop_not_mem frag rest n r2 s e applicable t r3 more ?_ hrest
                    have : i = frag.onType := beq_iff_eq.mp hi
                    rw [← this]; exact hnd.1
                  rw [← hrun.2, hmore]
                  simp only [countAssertionsFor, List.countP_cons, List.countP_nil, htgt]
                  by_cases hq : nm = t.name
                  · simp [hq]
                  · rw [if_neg hq]
                    simp only [Nat.zero_add]
                    rw [show (some t.name == some nm) = false from by
                      simp [beq_eq_false_iff_ne]; exact fun hh => hq hh.symm]
                    simp
            | rlist elem => simp only [hex] at hrun; simp at hrun
            | rscalar => simp only [hex] at hrun; simp at hrun
      · have hi' : (i == frag.onType) = false := by
          cases h : (i == frag.onType) with
          | true => exact absurd h hi
          | false => rfl
        simp only [innerLoop, hi', Bool.false_eq_true, if_false] at hrun
        exact ih n r s applicable t r' out hnd.2 hrun nm

theorem countAssertionsFor_append (nm : String) (l1 l2 : List Selection) :
    countAssertionsFor nm (l1 ++ l2) =
      countAssertionsFor nm l1 + countAssertionsFor nm l2 := by
  simp [countAssertionsFor, List.countP_append]

theorem ifaceLoop_count (frag : QFragment) (e : RObject)
    (hwf : ∀ k ta, e.typeAssertions.lookup k = some ta → taTargetName ta = some k) :
    ∀ (pts : List SObj) (n : Nat) (r : Request) (s : RSchema)
    (applicable : List SObj) (r' : Request) (out : List Selection),
    (pts.map SObj.name).Nodup → (∀ t ∈ pts, t.interfaces.Nodup) →
    ifaceLoop n r s e frag applicable pts = .ok (r', out) →
    ∀ nm, countAssertionsFor nm out ≤ (if nm ∈ pts.map SObj.name then 1 else 0) := by
  intro pts
  induction pts with
  | nil =>
    intro n r s applicable r' out _ _ hrun nm
    cases n with
    | zero => simp [ifaceLoop] at hrun
    | succ n =>
      simp only [ifaceLoop, Except.ok.injEq, Prod.mk.injEq] at hrun
      rw [← hrun.2]
      simp [countAssertionsFor]
  | cons t ts ih =>
    intro n r s applicable r' out hndp hndi hrun nm
    simp only [List.map_cons, List.nodup_cons] at hndp
    cases n with
    | zero => simp [ifaceLoop] at hrun
    | succ n =>
      simp only [ifaceLoop] at hrun
      cases hin : innerLoop n r s e frag applicable t t.interfaces with
      | error p => simp only [hin] at hrun; simp at hrun
      | ok rk =>
        obtain ⟨r2, selsT⟩ := rk
        simp only [hin] at hrun
        cases hrest : ifaceLoop n r2 s e frag applicable ts with
        | error p => simp only [hrest] at hrun; simp at hrun
        | ok rm =>
          obtain ⟨r3, selsRest⟩ := rm
          simp only [hrest] at hrun
          simp only [Except.ok.injEq, Prod.mk.injEq] at hrun
          have hT := innerLoop_count frag e hwf t.interfaces n r s applicable t r2 selsT
            (hndi t (List.mem_cons_self t ts)) hin nm
          have hR := ih n r2 s applicable r3 selsRest hndp.2
            (fun x hx => hndi x (List.mem_cons_of_mem t hx)) hrest nm
          rw [← hrun.2, countAssertionsFor_append]
          simp only [List.map_cons, List.mem_cons]
          by_cases h1 : nm = t.name
          · subst h1
            rw [if_pos rfl] at hT
            rw [if_neg hndp.1] at hR
            rw [if_pos (Or.inl rfl)]
            omega
          · rw [if_neg h1] at hT
            by_cases h2 : nm ∈ ts.map SObj.name
            · rw [if_pos (Or.inr h2)]
              rw [if_pos h2] at hR
              omega
            · rw [if_neg (by simp only [not_or]; exact ⟨h1, h2⟩)]
              rw [if_neg h2] at hR
              omega

theorem countAssertionsFor_singleton_le (nm : String) (x : Selection) :
    countAssertionsFor nm [x] ≤ 1 := by
  simp only [countAssertionsFor, List.countP_cons, List.countP_nil]
  split <;> simp

/-- Claim C6 (amended): a single NON-TRIVIAL fragment application emits at
most one TypeAssertion per concrete type name (given well-formed
type-assertion descriptors and duplicate-free possible-type and interface
lists); a full selection set, however, may contain several TypeAssertions
for the same concrete type — one per fragment narrowing to it — as the
counterexample shows: the deduplication asserted by the claim does not
happen per set. -/
theorem claim_C6_amended (n : Nat) (r : Request) (s : RSchema) (e : RObject)
    (frag : QFragment) (r' : Request) (out : List Selection)
    (hnt : frag.onType ≠ "" ∧ frag.onType ≠ e.name)
    (hwf : ∀ k ta, e.typeAssertions.lookup k = some ta → taTargetName ta = some k)
    (hnd : ∀ nm pts, r.schema.lookup frag.onType = some (.iface nm pts) →
      (pts.map SObj.name).Nodup ∧ ∀ t ∈ pts, t.interfaces.Nodup)
    (hrun : applyFragment n r s e frag = .ok (r', out)) :
    ∀ nm, countAssertionsFor nm out ≤ 1 := by
  intro nm
  cases n with
  | zero => simp [applyFragment] at hrun
  | succ n =>
    simp only [applyFragment] at hrun
    cases hpt : r.schema.lookup e.name with
    | none => simp only [hpt] at hrun; simp at hrun
    | some parentType =>
      simp only [hpt] at hrun
      by_cases hemp : (applicableTypesFor r frag parentType).isEmpty = true
      · rw [if_pos hemp] at hrun; simp at hrun
      · rw [if_neg hemp] at hrun
        have hcond : (frag.onType != "" && frag.onType != e.name) = true := by
          simp [bne_iff_ne, hnt.1, hnt.2]
        rw [if_pos hcond] at hrun
        have hobj : ∀ (hrun2 : (match (applicableTypesFor r frag parentType).find?
              (fun t => t.name == frag.onType) with
            | none => Except.error GPanic.invalidTypeSpread
            | some a =>
              match e.typeAssertions.lookup a.name with
              | none => Except.error (GPanic.unknownTypeAssertion frag.onType)
              | some ta =>
                match ta.typeExec with
                | .robj o =>
                  match applySelAux n r s o frag.sels [] with
                  | .error p => Except.error p
                  | .ok (r, kids) => Except.ok (r, [Selection.typeAssertion ta kids])
                | _ => Except.error GPanic.notAnObject) = Except.ok (r', out)),
            countAssertionsFor nm out ≤ 1 := by
          intro hrun2
          cases hfd : (applicableTypesFor r frag parentType).find?
              (fun t => t.name == frag.onType) with
          | none => simp only [hfd] at hrun2; simp at hrun2
          | some a =>
            simp only [hfd] at hrun2
            cases hta : e.typeAssertions.lookup a.name with
            | none => simp only [hta] at hrun2; simp at hrun2
            | some ta =>
              simp only [hta] at hrun2
              cases hex : ta.typeExec with
              | robj o =>
                simp only [hex] at hrun2
                cases hsel : applySelAux n r s o frag.sels [] with
                | error p => simp only [hsel] at hrun2; simp at hrun2
                | ok rk =>
                  obtain ⟨r2, kids⟩ := rk
                  simp only [hsel] at hrun2
                  simp only [Except.ok.injEq, Prod.mk.injEq] at hrun2
                  rw [← hrun2.2]
                  exact countAssertionsFor_singleton_le nm _
              | rlist elem => simp only [hex] at hrun2; simp at hrun2
              | rscalar => simp only [hex] at hrun2; simp at hrun2
        cases hft : r.schema.lookup frag.onType with
        | none =>
          simp only [hft] at hrun
          exact hobj hrun
        | some ft =>
          cases ft with
          | iface inm pts =>
            simp only [hft] at hrun
            have h := ifaceLoop_count frag e hwf pts n r s
              (applicableTypesFor r frag parentType) r' out
              (hnd inm pts hft).1 (hnd inm pts hft).2 hrun nm
            by_cases hmem : nm ∈ pts.map SObj.name
            · rw [if_pos hmem] at h; exact h
            · rw [if_neg hmem] at h; omega
          | obj o =>
            simp only [hft] at hrun
            exact hobj hrun
          | union unm mems =>
            simp only [hft] at hrun
            exact hobj hrun

/-- The fragment narrowing the union U non-trivially to its member A. -/
def fragA : QFragment := ⟨"A", []⟩

/-- Claim C6 (witness): the amended bound at the concrete non-trivial
fragment on A, whose application emits exactly one TypeAssertion. -/
theorem claim_C6_witness :
    countAssertionsFor "A" [Selection.typeAssertion taA []] ≤ 1 :=
  claim_C6_amended 10 req0 rsFix objU fragA req0 [Selection.typeAssertion taA []]
    (by constructor <;> decide)
    (by
      intro k ta h
      by_cases hk : k = "A"
      · subst hk
        rw [show objU.typeAssertions.lookup "A" = some taA from by
          with_unfolding_all rfl] at h
        cases h
        rfl
      · have hnone : objU.typeAssertions.lookup k = none := by
          simp only [objU, RObject.typeAssertions, List.lookup,
            beq_eq_false_iff_ne.mpr hk]
        rw [hnone] at h
        simp at h)
    (by
      intro nm pts h
      rw [show req0.schema.lookup fragA.onType = some (.obj sObjA) from by
        with_unfolding_all rfl] at h
      simp at h)
    (by with_unfolding_all rfl) "A"

/-! Claim C10: the error sink is append-only and monotone. -/

/-- The request after an operation carries the request before it as a
prefix of its error list. -/
def errsExtends (r r' : Request) : Prop := ∃ t, r'.errs = r.errs ++ t

theorem errsExtends_refl (r : Request) : errsExtends r r := ⟨[], by simp⟩

theorem errsExtends_trans {r1 r2 r3 : Request} (h1 : errsExtends r1 r2)
    (h2 : errsExtends r2 r3) : errsExtends r1 r3 := by
  obtain ⟨t1, e1⟩ := h1
  obtain ⟨t2, e2⟩ := h2
  exact ⟨t1 ++ t2, by rw [e2, e1, List.append_assoc]⟩

theorem errsExtends_addError (r : Request) (e : String) :
    errsExtends r (addError r e) := ⟨[e], rfl⟩

theorem errsExtends_of_ok {α : Type} {r0 r1 r2 : Request} {a b : α}
    (hx : errsExtends r0 r1)
    (h : (Except.ok (r1, a) : Except GPanic (Request × α)) = .ok (r2, b)) :
    errsExtends r0 r2 := by
  cases h
  exact hx

theorem includeStep_errs (r : Request) (ds : List Directive) (r' : Request) (b : Bool)
    (h : includeStep r ds = .ok (r', b)) : errsExtends r r' := by
  cases hks : ds.find? (fun d => d.name == "include") with
  | none =>
    simp only [includeStep, hks] at h
    exact errsExtends_of_ok (errsExtends_refl r) h
  | some d =>
    simp only [includeStep, hks] at h
    cases hlk : d.args.lookup "if" with
    | none => simp only [hlk] at h; simp at h
    | some raw =>
      simp only [hlk] at h
      cases hp : packBool (resolveValue r.vars raw) with
      | error m =>
        simp only [hp] at h
        exact errsExtends_of_ok (errsExtends_addError r m) h
      | ok v =>
        simp only [hp] at h
        cases v with
        | true => simp only [Bool.not_true, Bool.false_eq_true, if_false] at h
                  exact errsExtends_of_ok (errsExtends_refl r) h
        | false => simp only [Bool.not_false, if_true] at h
                   exact errsExtends_of_ok (errsExtends_refl r) h

theorem skipByDirective_errs (r : Request) (ds : List Directive) (r' : Request) (b : Bool)
    (h : skipByDirective r ds = .ok (r', b)) : errsExtends r r' := by
  cases hks : ds.find? (fun d => d.name == "skip") with
  | none =>
    simp only [skipByDirective, hks] at h
    exact includeStep_errs r ds r' b h
  | some d =>
    simp only [skipByDirective, hks] at h
    cases hlk : d.args.lookup "if" with
    | none => simp only [hlk] at h; simp at h
    | some raw =>
      simp only [hlk] at h
      cases hp : packBool (resolveValue r.vars raw) with
      | error m =>
        simp only [hp] at h
        exact errsExtends_trans (errsExtends_addError r m)
          (includeStep_errs (addError r m) ds r' b h)
      | ok v =>
        simp only [hp] at h
        cases v with
        | true =>
          simp only [if_true] at h
          exact errsExtends_of_ok (errsExtends_refl r) h
        | false =>
          simp only [Bool.false_eq_true, if_false] at h
          exact includeStep_errs r ds r' b h

/-- Simultaneous monotonicity of the error sink across the mutual
resolution functions, by induction on fuel. -/
theorem resolveErrs : ∀ n : Nat,
    (∀ r s e sels acc r' out,
      applySelAux n r s e sels acc = .ok (r', out) → errsExtends r r') ∧
    (∀ r s e frag r' out,
      applyFragment n r s e frag = .ok (r', out) → errsExtends r r') ∧
    (∀ r s e frag app pts r' out,
      ifaceLoop n r s e frag app pts = .ok (r', out) → errsExtends r r') ∧
    (∀ r s e frag app t iss r' out,
      innerLoop n r s e frag app t iss = .ok (r', out) → errsExtends r r') ∧
    (∀ r s rv sels r' out,
      applyField n r s rv sels = .ok (r', out) → errsExtends r r') := by
  intro n
  induction n with
  | zero =>
    refine ⟨?_, ?_, ?_, ?_, ?_⟩ <;> intros <;> simp_all [applySelAux,
      applyFragment, ifaceLoop, innerLoop, applyField]
  | succ n ih =>
    obtain ⟨IH1, IH2, IH3, IH4, IH5⟩ := ih
    refine ⟨?_, ?_, ?_, ?_, ?_⟩
    · -- applySelAux
      intro r s e sels acc r' out h
      cases sels with
      | nil =>
        simp only [applySelAux] at h
        exact errsExtends_of_ok (errsExtends_refl r) h
      | cons sel rest =>
        cases sel with
        | field f =>
          simp only [applySelAux] at h
          cases hsk : skipByDirective r f.directives with
          | error p => simp only [hsk] at h; simp at h
          | ok rb =>
            obtain ⟨r1, bsk⟩ := rb
            have hx1 : errsExtends r r1 := skipByDirective_errs r f.directives r1 bsk hsk
            simp only [hsk] at h
            cases bsk with
            | true => exact errsExtends_trans hx1 (IH1 r1 s e rest acc r' out h)
            | false =>
              by_cases hn1 : (f.name == "__typename") = true
              · simp only [hn1, if_true] at h
                by_cases hd : r1.disableIntrospection = true
                · simp only [hd, if_true] at h
                  exact errsExtends_trans hx1 (IH1 r1 s e rest acc r' out h)
                · simp only [Bool.not_eq_true] at hd
                  simp only [hd, Bool.false_eq_true, if_false] at h
                  exact errsExtends_trans hx1 (IH1 r1 s e rest _ r' out h)
              · simp only [hn1, Bool.false_eq_true, if_false] at h
                by_cases hn2 : (f.name == "__schema") = true
                · simp only [hn2, if_true] at h
                  by_cases hd : r1.disableIntrospection = true
                  · simp only [hd, if_true] at h
                    exact errsExtends_trans hx1 (IH1 r1 s e rest acc r' out h)
                  · simp only [Bool.not_eq_true] at hd
                    simp only [hd, Bool.false_eq_true, if_false] at h
                    cases hks : applySelAux n r1 s s.meta.metaSchema f.sels [] with
                    | error p => simp only [hks] at h; simp at h
                    | ok rk =>
                      obtain ⟨r2, kids⟩ := rk
                      simp only [hks] at h
                      exact errsExtends_trans hx1 (errsExtends_trans
                        (IH1 r1 s s.meta.metaSchema f.sels [] r2 kids hks)
                        (IH1 r2 s e rest _ r' out h))
                · simp only [hn2, Bool.false_eq_true, if_false] at h
                  by_cases hn3 : (f.name == "__type") = true
                  · simp only [hn3, if_true] at h
                    by_cases hd : r1.disableIntrospection = true
                    · simp only [hd, if_true] at h
                      exact errsExtends_trans hx1 (IH1 r1 s e rest acc r' out h)
                    · simp only [Bool.not_eq_true] at hd
                      simp only [hd, Bool.false_eq_true, if_false] at h
                      cases hargs : f.args.lookup "name" with
                      | none => simp only [hargs] at h; simp at h
                      | some raw =>
                        simp only [hargs] at h
                        cases hpk : packString (resolveValue r1.vars raw) with
                        | error msg =>
                          simp only [hpk] at h
                          exact errsExtends_trans hx1
                            (errsExtends_of_ok (errsExtends_addError r1 msg) h)
                        | ok tnm =>
                          simp only [hpk] at h
                          cases hlt : r1.schema.lookup tnm with
                          | none =>
                            simp only [hlt] at h
                            exact errsExtends_trans hx1 (errsExtends_of_ok
                              (errsExtends_refl r1) h)
                          | some t =>
                            simp only [hlt] at h
                            cases hks : applySelAux n r1 s s.meta.metaType f.sels [] with
                            | error p => simp only [hks] at h; simp at h
                            | ok rk =>
                              obtain ⟨r2, kids⟩ := rk
                              simp only [hks] at h
                              exact errsExtends_trans hx1 (errsExtends_trans
                                (IH1 r1 s s.meta.metaType f.sels [] r2 kids hks)
                                (IH1 r2 s e rest _ r' out h))
                  · simp only [hn3, Bool.false_eq_true, if_false] at h
                    cases hlk : e.fields.lookup f.name with
                    | none => simp only [hlk] at h; simp at h
                    | some fe =>
                      simp only [hlk] at h
                      cases hpq : fe.argsPacker with
                      | some p =>
                        simp only [hpq] at h
                        cases hpk : p (f.args.map fun a => (a.1, resolveValue r1.vars a.2)) with
                        | error msg =>
                          simp only [hpk] at h
                          exact errsExtends_trans hx1
                            (errsExtends_of_ok (errsExtends_addError r1 msg) h)
                        | ok u =>
                          simp only [hpk] at h
                          cases hfl : applyField n r1 s fe.valueExec f.sels with
                          | error p2 => simp only [hfl] at h; simp at h
                          | ok rk =>
                            obtain ⟨r2, kids⟩ := rk
                            simp only [hfl] at h
                            exact errsExtends_trans hx1 (errsExtends_trans
                              (IH5 r1 s fe.valueExec f.sels r2 kids hfl)
                              (IH1 r2 s e rest _ r' out h))
                      | none =>
                        simp only [hpq] at h
                        cases hfl : applyField n r1 s fe.valueExec f.sels with
                        | error p2 => simp only [hfl] at h; simp at h
                        | ok rk =>
                          obtain ⟨r2, kids⟩ := rk
                          simp only [hfl] at h
                          exact errsExtends_trans hx1 (errsExtends_trans
                            (IH5 r1 s fe.valueExec f.sels r2 kids hfl)
                            (IH1 r2 s e rest _ r' out h))
        | inlineFrag ds frag =>
          simp only [applySelAux] at h
          cases hsk : skipByDirective r ds with
          | error p => simp only [hsk] at h; simp at h
          | ok rb =>
            obtain ⟨r1, bsk⟩ := rb
            have hx1 : errsExtends r r1 := skipByDirective_errs r ds r1 bsk hsk
            simp only [hsk] at h
            cases bsk with
            | true => exact errsExtends_trans hx1 (IH1 r1 s e rest acc r' out h)
            | false =>
              cases hfr : applyFragment n r1 s e frag with
              | error p => simp only [hfr] at h; simp at h
              | ok rk =>
                obtain ⟨r2, fsels⟩ := rk
                simp only [hfr] at h
                exact errsExtends_trans hx1 (errsExtends_trans
                  (IH2 r1 s e frag r2 fsels hfr)
                  (IH1 r2 s e rest _ r' out h))
        | spread fname ds =>
          simp only [applySelAux] at h
          cases hsk : skipByDirective r ds with
          | error p => simp only [hsk] at h; simp at h
          | ok rb =>
            obtain ⟨r1, bsk⟩ := rb
            have hx1 : errsExtends r r1 := skipByDirective_errs r ds r1 bsk hsk
            simp only [hsk] at h
            cases bsk with
            | true => exact errsExtends_trans hx1 (IH1 r1 s e rest acc r' out h)
            | false =>
              cases hlf : r1.fragments.lookup fname with
              | none => simp only [hlf] at h; simp at h
              | some frag =>
                simp only [hlf] at h
                cases hfr : applyFragment n r1 s e frag with
                | error p => simp only [hfr] at h; simp at h
                | ok rk =>
                  obtain ⟨r2, fsels⟩ := rk
                  simp only [hfr] at h
                  exact errsExtends_trans hx1 (errsExtends_trans
                    (IH2 r1 s e frag r2 fsels hfr)
                    (IH1 r2 s e rest _ r' out h))
    · -- applyFragment
      intro r s e frag r' out h
      simp only [applyFragment] at h
      cases hpt : r.schema.lookup e.name with
      | none => simp only [hpt] at h; simp at h
      | some parentType =>
        simp only [hpt] at h
        by_cases hemp : (applicableTypesFor r frag parentType).isEmpty = true
        · rw [if_pos hemp] at h; simp at h
        · rw [if_neg hemp] at h
          by_cases hcond : (frag.onType != "" && frag.onType != e.name) = true
          · rw [if_pos hcond] at h
            have hobj : ∀ (h2 : (match (applicableTypesFor r frag parentType).find?
                  (fun t => t.name == frag.onType) with
                | none => Except.error GPanic.invalidTypeSpread
                | some a =>
                  match e.typeAssertions.lookup a.name with
                  | none => Except.error (GPanic.unknownTypeAssertion frag.onType)
                  | some ta =>
                    match ta.typeExec with
                    | .robj o =>
                      match applySelAux n r s o frag.sels [] with
                      | .error p => Except.error p
                      | .ok (r, kids) => Except.ok (r, [Selection.typeAssertion ta kids])
                    | _ => Except.error GPanic.notAnObject) = Except.ok (r', out)),
                errsExtends r r' := by
              intro h2
              cases hfd : (applicableTypesFor r frag parentType).find?
                  (fun t => t.name == frag.onType) with
              | none => simp only [hfd] at h2; simp at h2
              | some a =>
                simp only [hfd] at h2
                cases hta : e.typeAssertions.lookup a.name with
                | none => simp only [hta] at h2; simp at h2
                | some ta =>
                  simp only [hta] at h2
                  cases hex : ta.typeExec with
                  | robj o =>
                    simp only [hex] at h2
                    cases hsel : applySelAux n r s o frag.sels [] with
                    | error p => simp only [hsel] at h2; simp at h2
                    | ok rk =>
                      obtain ⟨r2, kids⟩ := rk
                      simp only [hsel] at h2
                      exact errsExtends_of_ok
                        (IH1 r s o frag.sels [] r2 kids hsel) h2
                  | rlist elem => simp only [hex] at h2; simp at h2
                  | rscalar => simp only [hex] at h2; simp at h2
            cases hft : r.schema.lookup frag.onType with
            | none => simp only [hft] at h; exact hobj h
            | some ft =>
              cases ft with
              | iface inm pts =>
                simp only [hft] at h
                exact IH3 r s e frag _ pts r' out h
              | obj o => simp only [hft] at h; exact hobj h
              | union unm mems => simp only [hft] at h; exact hobj h
          · rw [if_neg hcond] at h
            exact IH1 r s e frag.sels [] r' out h
    · -- ifaceLoop
      intro r s e frag app pts r' out h
      cases pts with
      | nil =>
        simp only [ifaceLoop] at h
        exact errsExtends_of_ok (errsExtends_refl r) h
      | cons t ts =>
        simp only [ifaceLoop] at h
        cases hin : innerLoop n r s e frag app t t.interfaces with
        | error p => simp only [hin] at h; simp at h
        | ok rk =>
          obtain ⟨r2, selsT⟩ := rk
          simp only [hin] at h
          cases hrest : ifaceLoop n r2 s e frag app ts with
          | error p => simp only [hrest] at h; simp at h
          | ok rm =>
            obtain ⟨r3, selsRest⟩ := rm
            simp only [hrest] at h
            exact errsExtends_of_ok (errsExtends_trans
              (IH4 r s e frag app t t.interfaces r2 selsT hin)
              (IH3 r2 s e frag app ts r3 selsRest hrest)) h
    · -- innerLoop
      intro r s e frag app t iss r' out h
      cases iss with
      | nil =>
        simp only [innerLoop] at h
        exact errsExtends_of_ok (errsExtends_refl r) h
      | cons i rest =>
        by_cases hi : (i == frag.onType) = true
        · simp only [innerLoop, hi, if_true] at h
          cases hfd : app.find? (fun a => a.name == t.name) with
          | none =>
            simp only [hfd] at h
            exact IH4 r s e frag app t rest r' out h
          | some a =>
            simp only [hfd] at h
            cases hta : e.typeAssertions.lookup a.name with
            | none => simp only [hta] at h; simp at h
            | some ta =>
              simp only [hta] at h
              cases hex : ta.typeExec with
              | robj o =>
                simp only [hex] at h
                cases hsel : applySelAux n r s o frag.sels [] with
                | error p => simp only [hsel] at h; simp at h
                | ok rk =>
                  obtain ⟨r2, kids⟩ := rk
                  simp only [hsel] at h
                  cases hrest : innerLoop n r2 s e frag app t rest with
                  | error p => simp only [hrest] at h; simp at h
                  | ok rm =>
                    obtain ⟨r3, more⟩ := rm
                    simp only [hrest] at h
                    exact errsExtends_of_ok (errsExtends_trans
                      (IH1 r s o frag.sels [] r2 kids hsel)
                      (IH4 r2 s e frag app t rest r3 more hrest)) h
              | rlist elem => simp only [hex] at h; simp at h
              | rscalar => simp only [hex] at h; simp at h
        · have hi' : (i == frag.onType) = false := by
            cases hq : (i == frag.onType) with
            | true => exact absurd hq hi
            | false => rfl
          simp only [innerLoop, hi', Bool.false_eq_true, if_false] at h
          exact IH4 r s e frag app t rest r' out h
    · -- applyField
      intro r s rv sels r' out h
      cases rv with
      | robj o =>
        simp only [applyField] at h
        exact IH1 r s o sels [] r' out h
      | rlist elem =>
        simp only [applyField] at h
        exact IH5 r s elem sels r' out h
      | rscalar =>
        simp only [applyField] at h
        exact errsExtends_of_ok (errsExtends_refl r) h

/-- Claim C10: the error sink is append-only and monotone across the
operations of one request's resolution — whenever selection-set
resolution, fragment application, or directive evaluation completes
without panicking, the error list before the call is a prefix of the list
after it (the call appends some, possibly empty, suffix; nothing is
removed, modified or reordered). -/
theorem claim_C10 (n : Nat) :
    (∀ r s e sels r' out, applySelectionSet n r s e sels = .ok (r', out) →
      ∃ t, r'.errs = r.errs ++ t) ∧
    (∀ r s e frag r' out, applyFragment n r s e frag = .ok (r', out) →
      ∃ t, r'.errs = r.errs ++ t) ∧
    (∀ r ds r' b, skipByDirective r ds = .ok (r', b) →
      ∃ t, r'.errs = r.errs ++ t) := by
  obtain ⟨H1, H2, _, _, _⟩ := resolveErrs n
  exact ⟨fun r s e sels r' out h => H1 r s e sels [] r' out h,
    fun r s e frag r' out h => H2 r s e frag r' out h,
    fun r ds r' b h => skipByDirective_errs r ds r' b h⟩

/-- Claim C10 (witness): monotonicity instantiated at a directive
evaluation that records one packing error — the new error list extends the
old one. -/
theorem claim_C10_witness :
    ∃ t, ({ req0 with errs := ["cannot pack value as boolean"] } : Request).errs =
      req0.errs ++ t :=
  (claim_C10 5).2.2 req0 dsC5 { req0 with errs := ["cannot pack value as boolean"] } true
    (by with_unfolding_all rfl)

end Gql
